import Mathlib

/-!
Verification of the ytrag transcript-cleaning and volume-batching pipeline.

The definitions below are a shallow embedding of `ytrag/cleaner.py`,
`ytrag/consolidator.py` and `ytrag/rate_limiter.py`.  Python strings are
modelled as `String`/`List Char`; Python floats as `Rat` (the arithmetic the
code performs on timestamps and sleep intervals is the exact arithmetic these
claims quantify over); fallible conversions return `Option`.  Character
predicates (`str.isdigit`, `str.isalpha`, `str.upper`, whitespace classes,
the `\w`/`\d`/`\s` regex classes) are modelled on their ASCII meaning, and
numeric-literal parsing (`int(..)`, `float(..)`) is modelled on decimal
literals with an optional sign (underscore separators, exponents and
`inf`/`nan` spellings are out of scope of every claim).  The fixed regular
expressions of `cleaner.py` are embedded as explicit matchers with the same
leftmost-match semantics.
-/

namespace Ytrag

/-! ## Python string primitives -/

/-- Whitespace as stripped by Python `str.strip()` (ASCII part). -/
def pyWs (c : Char) : Bool :=
  c = ' ' || c = '\t' || c = '\n' || c = '\r' || c = '\x0b' || c = '\x0c'

/-- Python `str.strip()` on a list of characters. -/
def pyStripList (l : List Char) : List Char :=
  ((l.dropWhile pyWs).reverse.dropWhile pyWs).reverse

/-- Python `str.strip()`. -/
def pyStrip (s : String) : String :=
  ⟨pyStripList s.data⟩

/-- The character class of the regex `\d` and of Python `str.isdigit` (ASCII). -/
def isAsciiDigit (c : Char) : Bool :=
  '0' ≤ c && c ≤ '9'

/-- Python `str.isdigit()`: nonempty and all digits. -/
def pyIsdigit (s : String) : Bool :=
  !s.data.isEmpty && s.data.all isAsciiDigit

/-- Python `str.lower()` on a list of characters (ASCII). -/
def pyLowerList (l : List Char) : List Char :=
  l.map Char.toLower

/-- Python `str.lower()`. -/
def pyLower (s : String) : String :=
  ⟨pyLowerList s.data⟩

/-- Python `a.startswith(p)`. -/
def pyStartsWith (p s : String) : Bool :=
  p.data.isPrefixOf s.data

/-- Worker for `pyReplaceList`, structurally recursive on `fuel`; every step
consumes at least one character, so passing the list's length as fuel never
reaches the `0` fallback on a nonempty list. -/
def pyReplaceAux (pat rep : List Char) : Nat → List Char → List Char
  | _, [] => []
  | 0, l => l
  | fuel + 1, c :: cs =>
    if pat ≠ [] ∧ pat.isPrefixOf (c :: cs) then
      rep ++ pyReplaceAux pat rep fuel (cs.drop (pat.length - 1))
    else
      c :: pyReplaceAux pat rep fuel cs

/-- Python `s.replace(pat, rep)` for a nonempty pattern: every non-overlapping
occurrence, scanning left to right. -/
def pyReplaceList (pat rep l : List Char) : List Char :=
  pyReplaceAux pat rep l.length l

/-- Python `s.split(sep)` for a single-character separator. -/
def splitOnChar (sep : Char) : List Char → List (List Char)
  | [] => [[]]
  | c :: cs =>
    if c = sep then [] :: splitOnChar sep cs
    else
      match splitOnChar sep cs with
      | [] => [[c]]
      | h :: t => (c :: h) :: t

/-- The line-boundary characters of Python `str.splitlines()`. -/
def lineBoundary (c : Char) : Bool :=
  c = '\n' || c = '\r' || c = '\x0b' || c = '\x0c' || c = '\x1c' ||
  c = '\x1d' || c = '\x1e' || c = '\x85' || c = '\u2028' || c = '\u2029'

/-- Worker for `pySplitlines` after carriage-return/line-feed pairs have been
replaced by a single line feed; `acc` is the current line, reversed. -/
def splitlinesAux : List Char → List Char → List (List Char)
  | acc, [] => if acc = [] then [] else [acc.reverse]
  | acc, c :: cs =>
    if lineBoundary c then acc.reverse :: splitlinesAux [] cs
    else splitlinesAux (c :: acc) cs

/-- Python `str.splitlines()`: a `\r\n` pair is one boundary (normalized to
`\n` first), every other line-boundary character stands alone. -/
def pySplitlines (s : String) : List String :=
  (splitlinesAux [] (pyReplaceList ['\r', '\n'] ['\n'] s.data)).map String.mk

/-- Worker for `collapseWsList`: `inRun` records whether the scan stands
inside a whitespace run whose single replacement space was already emitted. -/
def collapseAux : Bool → List Char → List Char
  | _, [] => []
  | inRun, c :: cs =>
    if pyWs c then
      if inRun then collapseAux true cs else ' ' :: collapseAux true cs
    else c :: collapseAux false cs

/-- The substitution `re.sub(r'\s+', ' ', ·)` performed on each paragraph:
every whitespace run becomes one space. -/
def collapseWsList (l : List Char) : List Char :=
  collapseAux false l

/-! ## Numeric conversions (`int(..)`, `float(..)`) -/

/-- Decimal value of a digit character. -/
def digitVal (c : Char) : Nat :=
  c.toNat - 48

/-- Value of a list of decimal digit characters. -/
def decimalNat (l : List Char) : Nat :=
  l.foldl (fun acc c => 10 * acc + digitVal c) 0

/-- An unsigned decimal integer literal: nonempty, all digits. -/
def intDigits? (l : List Char) : Option Nat :=
  if l ≠ [] ∧ l.all isAsciiDigit then some (decimalNat l) else none

/-- Model of Python `int(str)` on decimal literals: surrounding whitespace,
an optional sign, then a nonempty digit string. -/
def pyInt? (l : List Char) : Option Int :=
  let t := pyStripList l
  if t.head? = some '-' then (intDigits? t.tail).map (fun n => -(n : Int))
  else if t.head? = some '+' then (intDigits? t.tail).map (fun n => (n : Int))
  else (intDigits? t).map (fun n => (n : Int))

/-- The unsigned part of a decimal float literal: digits with an optional
fractional part, at least one digit in total (`"30"`, `"30."`, `".5"`). -/
def floatBody? (body : List Char) : Option Rat :=
  let ip := body.takeWhile isAsciiDigit
  let rest := body.drop ip.length
  if rest.head? = some '.' then
    let frac := rest.tail
    if frac.all isAsciiDigit ∧ (ip ≠ [] ∨ frac ≠ []) then
      some ((decimalNat ip : Rat) + (decimalNat frac : Rat) / (10 : Rat) ^ frac.length)
    else none
  else if rest = [] then
    if ip ≠ [] then some (decimalNat ip) else none
  else none

/-- Model of Python `float(str)` on decimal literals: surrounding whitespace,
an optional sign, then `floatBody?`. -/
def pyFloat? (l : List Char) : Option Rat :=
  let t := pyStripList l
  if t = [] then none
  else if t.head? = some '-' then (floatBody? t.tail).map (fun q => -q)
  else if t.head? = some '+' then floatBody? t.tail
  else floatBody? t

/-! ## `parse_vtt_timestamp` (cleaner.py, lines 47-68) -/

/-- Convert a VTT timestamp `HH:MM:SS.mmm` to seconds, `none` on failure:
empty input, other than exactly 3 colon-separated fields, or a field that
fails numeric conversion. -/
def parse_vtt_timestamp (timestamp : String) : Option Rat :=
  if timestamp = "" then none
  else
    let parts := splitOnChar ':' timestamp.data
    if parts.length = 3 then
      (pyInt? (parts.getD 0 [])).bind fun hours =>
        (pyInt? (parts.getD 1 [])).bind fun minutes =>
          (pyFloat? (parts.getD 2 [])).map fun seconds =>
            (hours : Rat) * 3600 + (minutes : Rat) * 60 + seconds
    else none

/-! ## Well-formed timestamp strings `HH:MM:SS.mmm` -/

/-- The decimal digit character for `k`, `k < 10`. -/
def dchar (k : Nat) : Char :=
  Char.ofNat (48 + k)

/-- Two-digit zero-padded rendering (the shape of the `HH`, `MM`, `SS` fields). -/
def pad2 (n : Nat) : List Char :=
  [dchar (n / 10 % 10), dchar (n % 10)]

/-- Three-digit zero-padded rendering (the shape of the `mmm` field). -/
def pad3 (n : Nat) : List Char :=
  [dchar (n / 100 % 10), dchar (n / 10 % 10), dchar (n % 10)]

/-- The four numeric fields of one `HH:MM:SS.mmm` timestamp. -/
structure TsParts where
  hh : Nat
  mm : Nat
  ss : Nat
  ms : Nat

/-- The characters of the timestamp `HH:MM:SS.mmm` for `t`. -/
def tsChars (t : TsParts) : List Char :=
  pad2 t.hh ++ ':' :: (pad2 t.mm ++ ':' :: (pad2 t.ss ++ '.' :: pad3 t.ms))

/-- The timestamp string `HH:MM:SS.mmm` for `t`. -/
def tsString (t : TsParts) : String :=
  ⟨tsChars t⟩

/-- The value displayed by a two-digit rendering of `n` (equals `n` for `n < 100`). -/
def digit2 (n : Nat) : Nat :=
  n / 10 % 10 * 10 + n % 10

/-- The value displayed by a three-digit rendering of `n` (equals `n` for `n < 1000`). -/
def digit3 (n : Nat) : Nat :=
  n / 100 % 10 * 100 + n / 10 % 10 * 10 + n % 10

/-- The number of seconds denoted by the timestamp string for `t`. -/
def tsSeconds (t : TsParts) : Rat :=
  (digit2 t.hh : Rat) * 3600 + (digit2 t.mm : Rat) * 60 + (digit2 t.ss : Rat) +
    (digit3 t.ms : Rat) / 1000

/-! ## Facts about digit characters and zero-padded fields -/

theorem mod10_lt (k : Nat) : k % 10 < 10 :=
  Nat.mod_lt _ (by norm_num)

theorem isAsciiDigit_dchar {k : Nat} (h : k < 10) : isAsciiDigit (dchar k) = true := by
  interval_cases k <;> decide

theorem digitVal_dchar {k : Nat} (h : k < 10) : digitVal (dchar k) = k := by
  interval_cases k <;> decide

theorem pyWs_dchar {k : Nat} (h : k < 10) : pyWs (dchar k) = false := by
  interval_cases k <;> decide

@[simp] theorem isAsciiDigit_dchar_mod (k : Nat) : isAsciiDigit (dchar (k % 10)) = true :=
  isAsciiDigit_dchar (mod10_lt k)

@[simp] theorem pyWs_dchar_mod (k : Nat) : pyWs (dchar (k % 10)) = false :=
  pyWs_dchar (mod10_lt k)

theorem dchar_ne_of_not_digit {k : Nat} (h : k < 10) {c : Char}
    (hc : isAsciiDigit c = false) : ¬ dchar k = c := by
  intro he
  rw [← he, isAsciiDigit_dchar h] at hc
  cases hc

@[simp] theorem dchar_mod_ne_colon (k : Nat) : ¬ dchar (k % 10) = ':' :=
  dchar_ne_of_not_digit (mod10_lt k) (by decide)

@[simp] theorem dchar_mod_ne_dot (k : Nat) : ¬ dchar (k % 10) = '.' :=
  dchar_ne_of_not_digit (mod10_lt k) (by decide)

@[simp] theorem dchar_mod_ne_minus (k : Nat) : ¬ dchar (k % 10) = '-' :=
  dchar_ne_of_not_digit (mod10_lt k) (by decide)

@[simp] theorem dchar_mod_ne_plus (k : Nat) : ¬ dchar (k % 10) = '+' :=
  dchar_ne_of_not_digit (mod10_lt k) (by decide)

theorem decimalNat_pad2 (n : Nat) : decimalNat (pad2 n) = digit2 n := by
  show 10 * (10 * 0 + digitVal (dchar (n / 10 % 10))) + digitVal (dchar (n % 10)) = digit2 n
  rw [digitVal_dchar (mod10_lt _), digitVal_dchar (mod10_lt _)]
  simp only [digit2]
  omega

theorem decimalNat_pad3 (n : Nat) : decimalNat (pad3 n) = digit3 n := by
  show 10 * (10 * (10 * 0 + digitVal (dchar (n / 100 % 10))) + digitVal (dchar (n / 10 % 10))) +
      digitVal (dchar (n % 10)) = digit3 n
  rw [digitVal_dchar (mod10_lt _), digitVal_dchar (mod10_lt _), digitVal_dchar (mod10_lt _)]
  simp only [digit3]
  omega

/-! ## Stripping facts -/

theorem dropWhile_eq_self_of_head {p : Char → Bool} : ∀ {l : List Char},
    (∀ c, l.head? = some c → p c = false) → l.dropWhile p = l
  | [], _ => rfl
  | c :: cs, h => by
    rw [List.dropWhile_cons, h c rfl]
    simp

theorem pyStripList_eq_self {l : List Char}
    (hh : ∀ c, l.head? = some c → pyWs c = false)
    (hl : ∀ c, l.getLast? = some c → pyWs c = false) : pyStripList l = l := by
  unfold pyStripList
  rw [dropWhile_eq_self_of_head hh, dropWhile_eq_self_of_head (by simpa using hl),
    l.reverse_reverse]

theorem pyStripList_of_all {l : List Char} (h : ∀ c ∈ l, pyWs c = false) :
    pyStripList l = l :=
  pyStripList_eq_self
    (fun c hc => h c (by cases l <;> simp_all))
    (fun c hc => h c (List.mem_of_getLast?_eq_some hc))

/-! ## Parsing a well-formed timestamp string -/

theorem pyStripList_pad2 (n : Nat) : pyStripList (pad2 n) = pad2 n :=
  pyStripList_of_all (by
    intro c hc
    simp only [pad2, List.mem_cons, List.not_mem_nil, or_false] at hc
    rcases hc with h | h <;> subst h <;> exact pyWs_dchar_mod _)

theorem head?_pad2 (n : Nat) : (pad2 n).head? = some (dchar (n / 10 % 10)) := rfl

theorem pyInt?_pad2 (n : Nat) : pyInt? (pad2 n) = some ((digit2 n : Nat) : Int) := by
  simp only [pyInt?, pyStripList_pad2, head?_pad2]
  rw [if_neg (by simpa using dchar_mod_ne_minus (n / 10)),
    if_neg (by simpa using dchar_mod_ne_plus (n / 10))]
  unfold intDigits?
  rw [if_pos ⟨by simp [pad2], by simp [pad2]⟩, decimalNat_pad2]
  rfl

theorem pyStripList_secfield (s ms : Nat) :
    pyStripList (pad2 s ++ '.' :: pad3 ms) = pad2 s ++ '.' :: pad3 ms :=
  pyStripList_eq_self
    (by
      intro c hc
      simp only [pad2, List.cons_append, List.head?_cons, Option.some.injEq] at hc
      rw [← hc]
      exact pyWs_dchar_mod _)
    (by
      intro c hc
      simp only [pad3, List.getLast?_append, List.getLast?_cons_cons,
        List.getLast?_singleton, Option.or_some, Option.some.injEq] at hc
      rw [← hc]
      exact pyWs_dchar_mod _)

theorem pyFloat?_secfield (s ms : Nat) :
    pyFloat? (pad2 s ++ '.' :: pad3 ms) =
      some (((digit2 s : Nat) : Rat) + ((digit3 ms : Nat) : Rat) / 1000) := by
  have hne : pad2 s ++ '.' :: pad3 ms ≠ [] := by simp [pad2]
  have hh : (pad2 s ++ '.' :: pad3 ms).head? = some (dchar (s / 10 % 10)) := by
    simp [pad2]
  have hm : ¬ (pad2 s ++ '.' :: pad3 ms).head? = some '-' := by
    rw [hh]
    simpa using dchar_mod_ne_minus (s / 10)
  have hp : ¬ (pad2 s ++ '.' :: pad3 ms).head? = some '+' := by
    rw [hh]
    simpa using dchar_mod_ne_plus (s / 10)
  have htake : (pad2 s ++ '.' :: pad3 ms).takeWhile isAsciiDigit = pad2 s := by
    rw [List.takeWhile_append_of_pos (by simp [pad2]), List.takeWhile_cons,
      if_neg (by decide)]
    simp
  simp only [pyFloat?, pyStripList_secfield]
  rw [if_neg hne, if_neg hm, if_neg hp]
  simp only [floatBody?, htake, List.drop_left]
  rw [if_pos (by simp)]
  rw [if_pos ⟨by simp [pad3], Or.inl (by simp [pad2])⟩]
  simp only [List.tail_cons]
  rw [decimalNat_pad2, decimalNat_pad3]
  norm_num [pad3]

theorem splitOnChar_tsChars (t : TsParts) :
    splitOnChar ':' (tsChars t) = [pad2 t.hh, pad2 t.mm, pad2 t.ss ++ '.' :: pad3 t.ms] := by
  simp only [tsChars, pad2, pad3, List.cons_append, List.nil_append]
  simp [splitOnChar]

theorem tsChars_ne_nil (t : TsParts) : tsChars t ≠ [] := by
  simp [tsChars, pad2]

theorem tsString_ne_empty (t : TsParts) : tsString t ≠ "" := by
  intro he
  exact tsChars_ne_nil t (by simpa [tsString, String.ext_iff] using he)

theorem parse_tsString (t : TsParts) :
    parse_vtt_timestamp (tsString t) = some (tsSeconds t) := by
  unfold parse_vtt_timestamp
  rw [if_neg (tsString_ne_empty t)]
  have hdata : (tsString t).data = tsChars t := rfl
  rw [hdata, splitOnChar_tsChars]
  rw [if_pos (by simp)]
  simp only [List.getD_cons_zero, List.getD_cons_succ]
  rw [pyInt?_pad2, pyInt?_pad2, pyFloat?_secfield]
  simp only [Option.some_bind, Option.map_some']
  rw [tsSeconds]
  push_cast
  ring_nf

/-- C3: for every well-formed `HH:MM:SS.mmm` timestamp string with hour value
`hh`, minute value `mm`, seconds value `ss` and millisecond value `mmm`,
`parse_vtt_timestamp` returns `hh*3600 + mm*60 + ss + mmm/1000`; in particular
it parses `"00:01:30.500"` to `90.5` and `"00:00:00.000"` to `0.0`; and it
returns `none` for the empty string, for `"invalid"`, for any string with
other than exactly 3 colon-separated fields, and for any string one of whose
fields fails numeric conversion. -/
theorem parse_vtt_timestamp_spec :
    (∀ t : TsParts, t.hh < 100 → t.mm < 100 → t.ss < 100 → t.ms < 1000 →
       parse_vtt_timestamp (tsString t) =
         some ((t.hh : Rat) * 3600 + (t.mm : Rat) * 60 + (t.ss : Rat) + (t.ms : Rat) / 1000)) ∧
    parse_vtt_timestamp "00:01:30.500" = some (90.5 : Rat) ∧
    parse_vtt_timestamp "00:00:00.000" = some (0 : Rat) ∧
    parse_vtt_timestamp "" = none ∧
    parse_vtt_timestamp "invalid" = none ∧
    (∀ s : String, (splitOnChar ':' s.data).length ≠ 3 → parse_vtt_timestamp s = none) ∧
    (∀ (s : String) (p0 p1 p2 : List Char), splitOnChar ':' s.data = [p0, p1, p2] →
       pyInt? p0 = none ∨ pyInt? p1 = none ∨ pyFloat? p2 = none →
       parse_vtt_timestamp s = none) := by
  have hex1 : "00:01:30.500" = tsString ⟨0, 1, 30, 500⟩ := by decide
  have hex2 : "00:00:00.000" = tsString ⟨0, 0, 0, 0⟩ := by decide
  refine ⟨?_, ?_, ?_, by decide, by decide, ?_, ?_⟩
  · intro t h1 h2 h3 h4
    rw [parse_tsString t, tsSeconds]
    have e1 : digit2 t.hh = t.hh := by rw [digit2]; omega
    have e2 : digit2 t.mm = t.mm := by rw [digit2]; omega
    have e3 : digit2 t.ss = t.ss := by rw [digit2]; omega
    have e4 : digit3 t.ms = t.ms := by rw [digit3]; omega
    rw [e1, e2, e3, e4]
  · rw [hex1, parse_tsString]
    norm_num [tsSeconds, digit2, digit3]
  · rw [hex2, parse_tsString]
    norm_num [tsSeconds, digit2, digit3]
  · intro s h
    unfold parse_vtt_timestamp
    split
    · rfl
    · rw [if_neg h]
  · intro s p0 p1 p2 hsplit hfail
    unfold parse_vtt_timestamp
    split
    · rfl
    · rw [hsplit]
      rw [if_pos (by simp)]
      simp only [List.getD_cons_zero, List.getD_cons_succ]
      rcases hfail with h | h | h
      · rw [h]
        rfl
      · cases h0 : pyInt? p0
        · rfl
        · rw [h]
          rfl
      · cases h0 : pyInt? p0
        · rfl
        · cases h1 : pyInt? p1
          · rfl
          · rw [h]
            rfl

/-- C4 counterexample: on `"-01:00:00.000"` the parser neither raises nor
fails, yet returns the negative value `-3600`, so the result is not always a
non-negative float. -/
theorem parse_vtt_timestamp_negative_cex :
    parse_vtt_timestamp "-01:00:00.000" = some (-3600 : Rat) ∧
      ¬ (0 : Rat) ≤ (-3600 : Rat) := by
  constructor
  · have hsplit : splitOnChar ':' "-01:00:00.000".data =
        [['-', '0', '1'], ['0', '0'], pad2 0 ++ '.' :: pad3 0] := by decide
    simp only [parse_vtt_timestamp, hsplit]
    rw [if_neg (by decide), if_pos (by decide)]
    simp only [List.getD_cons_zero, List.getD_cons_succ]
    rw [show pyInt? ['-', '0', '1'] = some (-1) from by decide,
      show pyInt? ['0', '0'] = some 0 from by decide, pyFloat?_secfield]
    simp only [Option.some_bind, Option.map_some']
    norm_num [digit2, digit3]
  · norm_num

/-- C4 (amended): `parse_vtt_timestamp` never raises (the embedding is a total
function into `Option`); every successful result is the value
`hours*3600 + minutes*60 + seconds` of the three converted fields, and it is
non-negative whenever the three fields convert to non-negative values (a field
carrying a minus sign can make the result negative). -/
theorem parse_vtt_timestamp_shape (s : String) (x : Rat)
    (h : parse_vtt_timestamp s = some x) :
    ∃ (p0 p1 p2 : List Char) (hours minutes : Int) (seconds : Rat),
      splitOnChar ':' s.data = [p0, p1, p2] ∧
      pyInt? p0 = some hours ∧ pyInt? p1 = some minutes ∧ pyFloat? p2 = some seconds ∧
      x = (hours : Rat) * 3600 + (minutes : Rat) * 60 + seconds ∧
      (0 ≤ hours → 0 ≤ minutes → 0 ≤ seconds → 0 ≤ x) := by
  simp only [parse_vtt_timestamp] at h
  split at h
  · cases h
  · split at h
    · rename_i hlen
      obtain ⟨p0, p1, p2, hsplit⟩ := List.length_eq_three.mp hlen
      rw [hsplit] at h ⊢
      simp only [List.getD_cons_zero, List.getD_cons_succ] at h
      cases h0 : pyInt? p0 with
      | none => rw [h0] at h; cases h
      | some hours =>
        rw [h0] at h
        cases h1 : pyInt? p1 with
        | none => rw [h1] at h; cases h
        | some minutes =>
          rw [h1] at h
          cases h2 : pyFloat? p2 with
          | none => rw [h2] at h; cases h
          | some seconds =>
            rw [h2] at h
            simp only [Option.some_bind, Option.map_some', Option.some.injEq] at h
            refine ⟨p0, p1, p2, hours, minutes, seconds, rfl, h0, h1, h2, h.symm, ?_⟩
            intro ha hb hc
            rw [← h]
            have ha' : (0 : Rat) ≤ (hours : Rat) := by exact_mod_cast ha
            have hb' : (0 : Rat) ≤ (minutes : Rat) := by exact_mod_cast hb
            have h36 : (0 : Rat) ≤ 3600 := by norm_num
            have h60 : (0 : Rat) ≤ 60 := by norm_num
            exact add_nonneg (add_nonneg (mul_nonneg ha' h36) (mul_nonneg hb' h60)) hc
    · cases h

/-- C4 witness: the amended theorem applied at `"00:01:30.500"`. -/
theorem parse_vtt_timestamp_shape_witness :
    ∃ (p0 p1 p2 : List Char) (hours minutes : Int) (seconds : Rat),
      splitOnChar ':' "00:01:30.500".data = [p0, p1, p2] ∧
      pyInt? p0 = some hours ∧ pyInt? p1 = some minutes ∧ pyFloat? p2 = some seconds ∧
      (90.5 : Rat) = (hours : Rat) * 3600 + (minutes : Rat) * 60 + seconds ∧
      (0 ≤ hours → 0 ≤ minutes → 0 ≤ seconds → 0 ≤ (90.5 : Rat)) :=
  parse_vtt_timestamp_shape "00:01:30.500" 90.5 (by
    rw [show "00:01:30.500" = tsString ⟨0, 1, 30, 500⟩ from by decide, parse_tsString]
    norm_num [tsSeconds, digit2, digit3])

/-! ## `AdaptiveRateLimiter` (rate_limiter.py) -/

/-- The state of an `AdaptiveRateLimiter`: the four constructor parameters and
the two mutable fields (`current_sleep`, `backoff_requests`). Sleep intervals
are Python floats, modelled as `Rat`; `backoff_count` is a Python `int`. -/
structure AdaptiveRateLimiter where
  base_sleep : Rat
  max_sleep : Rat
  backoff_count : Int
  decay_rate : Rat
  current_sleep : Rat
  backoff_requests : Int

namespace AdaptiveRateLimiter

/-- `AdaptiveRateLimiter.__init__`. -/
def init (base_sleep max_sleep : Rat) (backoff_count : Int) (decay_rate : Rat) :
    AdaptiveRateLimiter :=
  { base_sleep := base_sleep, max_sleep := max_sleep, backoff_count := backoff_count,
    decay_rate := decay_rate, current_sleep := base_sleep, backoff_requests := 0 }

/-- `on_rate_limit`: double the sleep time (capped at `max_sleep`) and arm the
backoff counter. -/
def on_rate_limit (rl : AdaptiveRateLimiter) : AdaptiveRateLimiter :=
  { rl with current_sleep := min (rl.current_sleep * 2) rl.max_sleep,
            backoff_requests := rl.backoff_count }

/-- `on_success`: consume one backoff request, or decay the sleep time back
toward `base_sleep`. -/
def on_success (rl : AdaptiveRateLimiter) : AdaptiveRateLimiter :=
  if rl.backoff_requests > 0 then
    { rl with backoff_requests := rl.backoff_requests - 1 }
  else
    { rl with current_sleep := max rl.base_sleep (rl.current_sleep - rl.decay_rate) }

/-- `get_sleep_time`. -/
def get_sleep_time (rl : AdaptiveRateLimiter) : Rat :=
  rl.current_sleep

end AdaptiveRateLimiter

/-- One call made against the rate limiter. -/
inductive RLEvent where
  | rateLimit
  | success

/-- Apply one call to the limiter state. -/
def rlStep (rl : AdaptiveRateLimiter) : RLEvent → AdaptiveRateLimiter
  | RLEvent.rateLimit => rl.on_rate_limit
  | RLEvent.success => rl.on_success

/-- Run a sequence of calls against the limiter state. -/
def rlRun (rl : AdaptiveRateLimiter) (events : List RLEvent) : AdaptiveRateLimiter :=
  events.foldl rlStep rl

/-- The configuration fields never change and the mutable fields stay in range. -/
def RLInv (base max_ : Rat) (bc : Int) (decay : Rat) (rl : AdaptiveRateLimiter) : Prop :=
  rl.base_sleep = base ∧ rl.max_sleep = max_ ∧ rl.backoff_count = bc ∧
    rl.decay_rate = decay ∧ base ≤ rl.current_sleep ∧ rl.current_sleep ≤ max_ ∧
    0 ≤ rl.backoff_requests

theorem rlStep_inv {base max_ : Rat} {bc : Int} {decay : Rat}
    (hbase : 0 ≤ base) (hmax : base ≤ max_) (hdecay : 0 ≤ decay) (hbc : 0 ≤ bc)
    {rl : AdaptiveRateLimiter} (h : RLInv base max_ bc decay rl) (e : RLEvent) :
    RLInv base max_ bc decay (rlStep rl e) := by
  obtain ⟨h1, h2, h3, h4, h5, h6, h7⟩ := h
  cases e with
  | rateLimit =>
    refine ⟨h1, h2, h3, h4, ?_, ?_, ?_⟩
    · simp only [rlStep, AdaptiveRateLimiter.on_rate_limit, le_min_iff, h2]
      constructor
      · calc base ≤ rl.current_sleep := h5
          _ ≤ rl.current_sleep * 2 := by nlinarith
      · exact hmax
    · simp only [rlStep, AdaptiveRateLimiter.on_rate_limit, h2]
      exact min_le_right _ _
    · simp only [rlStep, AdaptiveRateLimiter.on_rate_limit, h3]
      exact hbc
  | success =>
    simp only [rlStep, AdaptiveRateLimiter.on_success]
    split
    · rename_i hpos
      refine ⟨h1, h2, h3, h4, h5, h6, ?_⟩
      show (0 : Int) ≤ rl.backoff_requests - 1
      omega
    · refine ⟨h1, h2, h3, h4, ?_, ?_, h7⟩
      · simp [h1]
      · simp only [max_le_iff, h1, h4]
        constructor
        · exact hmax
        · calc rl.current_sleep - decay ≤ rl.current_sleep := by linarith
            _ ≤ max_ := h6

theorem rlRun_inv {base max_ : Rat} {bc : Int} {decay : Rat}
    (hbase : 0 ≤ base) (hmax : base ≤ max_) (hdecay : 0 ≤ decay) (hbc : 0 ≤ bc) :
    ∀ (events : List RLEvent) {rl : AdaptiveRateLimiter},
      RLInv base max_ bc decay rl → RLInv base max_ bc decay (rlRun rl events)
  | [], _, h => h
  | e :: es, rl, h =>
    rlRun_inv hbase hmax hdecay hbc es (rlStep_inv hbase hmax hdecay hbc h e)

/-- C10 counterexample: the claim constrains only `base_sleep`, `max_sleep`
and `decay_rate`; constructing with `backoff_count = -1` (legal for a Python
`int`) and receiving one rate-limit makes `backoff_requests` negative. -/
theorem rate_limiter_negative_backoff_cex :
    (0 : Rat) ≤ 1 ∧ (1 : Rat) ≤ 2 ∧ (0 : Rat) ≤ 0 ∧
      (rlRun (AdaptiveRateLimiter.init 1 2 (-1) 0) [RLEvent.rateLimit]).backoff_requests < 0 := by
  refine ⟨by norm_num, by norm_num, le_refl 0, ?_⟩
  show (AdaptiveRateLimiter.init 1 2 (-1) 0).on_rate_limit.backoff_requests < 0
  simp [AdaptiveRateLimiter.init, AdaptiveRateLimiter.on_rate_limit]

/-- C10 (amended): for a limiter constructed with
`0 ≤ base_sleep ≤ max_sleep`, `decay_rate ≥ 0` and `backoff_count ≥ 0`, every
sequence of `on_rate_limit`/`on_success` calls keeps
`base_sleep ≤ current_sleep ≤ max_sleep` and `backoff_requests ≥ 0`, so
`get_sleep_time` always returns a value in `[base_sleep, max_sleep]`. -/
theorem rate_limiter_invariant (base max_ : Rat) (bc : Int) (decay : Rat)
    (hbase : 0 ≤ base) (hmax : base ≤ max_) (hdecay : 0 ≤ decay) (hbc : 0 ≤ bc)
    (events : List RLEvent) :
    base ≤ (rlRun (AdaptiveRateLimiter.init base max_ bc decay) events).current_sleep ∧
    (rlRun (AdaptiveRateLimiter.init base max_ bc decay) events).current_sleep ≤ max_ ∧
    0 ≤ (rlRun (AdaptiveRateLimiter.init base max_ bc decay) events).backoff_requests ∧
    base ≤ (rlRun (AdaptiveRateLimiter.init base max_ bc decay) events).get_sleep_time ∧
    (rlRun (AdaptiveRateLimiter.init base max_ bc decay) events).get_sleep_time ≤ max_ := by
  have h0 : RLInv base max_ bc decay (AdaptiveRateLimiter.init base max_ bc decay) :=
    ⟨rfl, rfl, rfl, rfl, le_refl base, hmax, le_refl 0⟩
  obtain ⟨-, -, -, -, h5, h6, h7⟩ := rlRun_inv hbase hmax hdecay hbc events h0
  exact ⟨h5, h6, h7, h5, h6⟩

/-- C10 witness: the amended invariant at a concrete configuration and call
sequence. -/
theorem rate_limiter_invariant_witness :
    (2 : Rat) ≤ (rlRun (AdaptiveRateLimiter.init 2 30 3 (1 / 2))
        [RLEvent.rateLimit, RLEvent.success, RLEvent.success]).current_sleep ∧
    (rlRun (AdaptiveRateLimiter.init 2 30 3 (1 / 2))
        [RLEvent.rateLimit, RLEvent.success, RLEvent.success]).current_sleep ≤ 30 ∧
    (0 : Int) ≤ (rlRun (AdaptiveRateLimiter.init 2 30 3 (1 / 2))
        [RLEvent.rateLimit, RLEvent.success, RLEvent.success]).backoff_requests ∧
    (2 : Rat) ≤ (rlRun (AdaptiveRateLimiter.init 2 30 3 (1 / 2))
        [RLEvent.rateLimit, RLEvent.success, RLEvent.success]).get_sleep_time ∧
    (rlRun (AdaptiveRateLimiter.init 2 30 3 (1 / 2))
        [RLEvent.rateLimit, RLEvent.success, RLEvent.success]).get_sleep_time ≤ 30 :=
  rate_limiter_invariant 2 30 3 (1 / 2) (by norm_num) (by norm_num) (by norm_num)
    (by norm_num) [RLEvent.rateLimit, RLEvent.success, RLEvent.success]

/-! ## Consolidator (consolidator.py)

The filesystem interaction is abstracted away: a channel directory is the
ordered list of its markdown files (`sorted(channel_biblioteca.glob("*.md"))`),
each a name plus its content, and writing a volume file is collecting the
pair (volume name, volume text).  The `except` branch of the per-file loop
(an unreadable file) has no counterpart for in-memory contents. -/

/-- Fixed batch size default (`TRANSCRIPTS_PER_VOLUME = 100`). -/
def TRANSCRIPTS_PER_VOLUME : Nat := 100

/-- The sentinel between consecutive transcript bodies. -/
def SEPARATOR : String := "\n\n---\n[FIN DE TRANSCRIPCION]\n---\n\n"

/-- One markdown file of a channel library: its filename and its content. -/
structure MdFile where
  name : String
  content : String
deriving DecidableEq

/-- `validate_markdown_file`: nonempty and, after stripping, starts with a
markdown heading marker. -/
def validate_markdown_file (content : String) : Bool :=
  if content = "" then false
  else pyStartsWith "# " (pyStrip content)

/-- `extract_title`: first line, with leading `#`/space characters removed,
stripped. -/
def extract_title (content : String) : String :=
  let first_line := (splitOnChar '\n' content.data).headD []
  ⟨pyStripList (first_line.dropWhile (fun c => c = '#' || c = ' '))⟩

/-- Accumulator of the per-batch loop of `consolidate_channel`. -/
structure BatchAcc where
  content_parts : List String
  index_entries : List String
  included_count : Nat
  skipped : List String

/-- One iteration of `for idx, md_file in enumerate(batch)`. -/
def batchStep (start batchLen : Nat) (acc : BatchAcc) (idx : Nat) (md_file : MdFile) :
    BatchAcc :=
  if validate_markdown_file md_file.content = false then
    { acc with skipped := acc.skipped ++ [md_file.name] }
  else
    { acc with
      index_entries := acc.index_entries ++
        [toString (start + acc.included_count + 1) ++ ". " ++ extract_title md_file.content],
      content_parts := acc.content_parts ++ [md_file.content] ++
        (if idx < batchLen - 1 then [SEPARATOR] else []),
      included_count := acc.included_count + 1 }

/-- The per-batch loop, `idx` tracking the enumeration counter. -/
def runBatchAux (start batchLen : Nat) : Nat → BatchAcc → List MdFile → BatchAcc
  | _, acc, [] => acc
  | idx, acc, f :: fs => runBatchAux start batchLen (idx + 1) (batchStep start batchLen acc idx f) fs

/-- The body/index data collected for one batch. -/
def runBatch (start : Nat) (batch : List MdFile) : BatchAcc :=
  runBatchAux start batch.length 0 ⟨[], [], 0, []⟩ batch

/-- Zero-padded two-digit rendering of a volume number (`f"{n:02d}"`). -/
def pad2Str (n : Nat) : String :=
  if n < 10 then "0" ++ toString n else toString n

/-- The artifact name of one volume. -/
def volumeName (channel : String) (vol_num : Nat) : String :=
  channel ++ "_Vol" ++ pad2Str (vol_num + 1) ++ ".txt"

/-- The three `===` header lines of one volume. -/
def volumeHeader (channel : String) (vol_num total_volumes start batchLen : Nat) :
    List String :=
  ["=== COLECCIÓN: " ++ channel ++ " ===\n",
   "=== VOLUMEN: " ++ toString (vol_num + 1) ++ " de " ++ toString total_volumes ++ " ===\n",
   "=== CONTENIDO: Transcripciones " ++ toString (start + 1) ++ " a " ++
     toString (start + batchLen) ++ " ===\n\n"]

/-- The trailing index section, present only when some entry was included. -/
def indexSection (index_entries : List String) : List String :=
  if index_entries = [] then []
  else
    ["\n\n" ++ String.mk (List.replicate 60 '=') ++ "\n",
     "=== ÍNDICE DE ESTE VOLUMEN ===\n",
     String.mk (List.replicate 60 '=') ++ "\n\n",
     String.intercalate "\n" index_entries,
     "\n"]

/-- The full text written for one volume. -/
def volumeText (channel : String) (vol_num total_volumes start : Nat)
    (batch : List MdFile) : String :=
  String.join (volumeHeader channel vol_num total_volumes start batch.length ++
    (runBatch start batch).content_parts ++
    indexSection (runBatch start batch).index_entries)

/-- The result of `consolidate_channel`: the reported total, the reported
volume-name list, the volume files actually written, and the skipped names. -/
structure ChannelResult where
  total : Nat
  volumes : List String
  written : List (String × String)
  skipped : List String

/-- `consolidate_channel` on the ordered markdown files of one channel.
`per` (`transcripts_per_volume`) must be positive, as in the Python code
(division by zero otherwise). -/
def consolidate_channel (channel : String) (mdFiles : List MdFile) (per : Nat) :
    ChannelResult :=
  if mdFiles = [] then ⟨0, [], [], []⟩
  else
    let total := mdFiles.length
    let total_volumes := (total + per - 1) / per
    (List.range total_volumes).foldl
      (fun res vol_num =>
        let start := vol_num * per
        let batch := (mdFiles.drop start).take per
        { res with
          volumes := res.volumes ++ [volumeName channel vol_num],
          written := res.written ++
            [(volumeName channel vol_num, volumeText channel vol_num total_volumes start batch)],
          skipped := res.skipped ++ (runBatch start batch).skipped })
      ⟨total, [], [], []⟩

/-- One per-channel entry of the manifest written by `consolidate_all`. -/
structure ManifestEntry where
  total_transcripciones : Nat
  volumenes : List String
  archivos_omitidos : Option (List String)
deriving DecidableEq

/-- The manifest entry recorded for one channel result. -/
def channelManifestEntry (r : ChannelResult) : ManifestEntry :=
  ⟨r.total, r.volumes, if r.skipped = [] then none else some r.skipped⟩

/-- `consolidate_all`: consolidate every channel directory and record one
manifest entry per channel. -/
def consolidate_all (channels : List (String × List MdFile)) (per : Nat) :
    List (String × ManifestEntry) :=
  channels.map fun ch =>
    (ch.1, channelManifestEntry (consolidate_channel ch.1 ch.2 per))

/-! ## Characterizing the per-batch loop -/

/-- Specification of the body parts emitted by the batch loop from position
`idx` on: each included body, followed by the sentinel exactly when the item
is not the last of the batch. -/
def partsSpec (batchLen : Nat) : Nat → List MdFile → List String
  | _, [] => []
  | idx, f :: fs =>
    (if validate_markdown_file f.content then
      [f.content] ++ (if idx < batchLen - 1 then [SEPARATOR] else [])
    else []) ++ partsSpec batchLen (idx + 1) fs

/-- Specification of the index entries emitted by the batch loop when the next
included item receives number `base + 1`. -/
def entriesSpec (base : Nat) : List MdFile → List String
  | [] => []
  | f :: fs =>
    if validate_markdown_file f.content then
      (toString (base + 1) ++ ". " ++ extract_title f.content) :: entriesSpec (base + 1) fs
    else entriesSpec base fs

/-- The names of the invalid documents, in order. -/
def skippedSpec : List MdFile → List String
  | [] => []
  | f :: fs =>
    if validate_markdown_file f.content then skippedSpec fs
    else f.name :: skippedSpec fs

/-- How many documents of the list pass validation. -/
def includedCount (fs : List MdFile) : Nat :=
  (fs.filter (fun f => validate_markdown_file f.content)).length

theorem runBatchAux_eq (start batchLen : Nat) (fs : List MdFile) :
    ∀ (idx : Nat) (acc : BatchAcc),
      runBatchAux start batchLen idx acc fs =
        ⟨acc.content_parts ++ partsSpec batchLen idx fs,
         acc.index_entries ++ entriesSpec (start + acc.included_count) fs,
         acc.included_count + includedCount fs,
         acc.skipped ++ skippedSpec fs⟩ := by
  induction fs with
  | nil =>
    intro idx acc
    simp [runBatchAux, partsSpec, entriesSpec, skippedSpec, includedCount]
  | cons f fs ih =>
    intro idx acc
    rw [runBatchAux, ih]
    by_cases hv : validate_markdown_file f.content = true
    · rw [batchStep, if_neg (by simp [hv])]
      simp only [partsSpec, entriesSpec, skippedSpec, includedCount, hv, if_true,
        List.filter_cons_of_pos, List.length_cons, BatchAcc.mk.injEq]
      refine ⟨by simp, ?_, ?_, by simp⟩
      · have : start + acc.included_count + 1 = start + (acc.included_count + 1) := by omega
        simp [this]
      · omega
    · rw [batchStep, if_pos (by simpa using hv)]
      have hv' : validate_markdown_file f.content = false := by simpa using hv
      simp only [partsSpec, entriesSpec, skippedSpec, includedCount, hv',
        List.filter_cons_of_neg, Bool.false_eq_true, if_false, BatchAcc.mk.injEq]
      refine ⟨by simp, by simp, ?_, by simp⟩
      rw [List.filter_cons_of_neg (by simp [hv'])]

theorem runBatch_eq (start : Nat) (batch : List MdFile) :
    runBatch start batch =
      ⟨partsSpec batch.length 0 batch, entriesSpec start batch, includedCount batch,
       skippedSpec batch⟩ := by
  rw [runBatch, runBatchAux_eq]
  simp

theorem foldl_channel_acc (f : Nat → String) (g : Nat → String × String)
    (h : Nat → List String) :
    ∀ (xs : List Nat) (t : Nat) (vs : List String) (ws : List (String × String))
      (ss : List String),
      xs.foldl
        (fun (res : ChannelResult) (v : Nat) =>
          { res with
            volumes := res.volumes ++ [f v]
            written := res.written ++ [g v]
            skipped := res.skipped ++ h v })
        ⟨t, vs, ws, ss⟩ =
      ⟨t, vs ++ xs.map f, ws ++ xs.map g, ss ++ (xs.map h).flatten⟩ := by
  intro xs
  induction xs with
  | nil =>
    intro t vs ws ss
    simp
  | cons x xs ih =>
    intro t vs ws ss
    rw [List.foldl_cons]
    show List.foldl _ (⟨t, vs ++ [f x], ws ++ [g x], ss ++ h x⟩ : ChannelResult) xs = _
    rw [ih]
    simp

theorem consolidate_channel_eq (channel : String) (mdFiles : List MdFile) (per : Nat)
    (h : mdFiles ≠ []) :
    consolidate_channel channel mdFiles per =
      ⟨mdFiles.length,
       (List.range ((mdFiles.length + per - 1) / per)).map (volumeName channel),
       (List.range ((mdFiles.length + per - 1) / per)).map (fun v =>
         (volumeName channel v,
          volumeText channel v ((mdFiles.length + per - 1) / per) (v * per)
            ((mdFiles.drop (v * per)).take per))),
       ((List.range ((mdFiles.length + per - 1) / per)).map (fun v =>
         (runBatch (v * per) ((mdFiles.drop (v * per)).take per)).skipped)).flatten⟩ := by
  rw [consolidate_channel, if_neg h]
  exact foldl_channel_acc _ _ _ _ _ _ _ _

/-- C9 counterexample: one channel with a single invalid document; the
manifest records `total_transcripciones = 1` although the count of valid
input documents is `0`. -/
theorem manifest_total_counts_invalid_cex :
    consolidate_all [("C", [⟨"a.md", "no heading"⟩])] 100 =
      [("C", ⟨1, ["C_Vol01.txt"], some ["a.md"]⟩)] ∧
    includedCount [⟨"a.md", "no heading"⟩] = 0 := by
  constructor
  · decide
  · decide

/-- C9 (amended): every manifest entry records as `total_transcripciones` the
count of all candidate `.md` documents of its channel (valid and skipped
alike, not only the valid ones), its `volumenes` list is exactly the list of
names of the volume files actually written, and `archivos_omitidos` is the
skipped-name list, or `null` when nothing was skipped. -/
theorem manifest_entries_spec (channels : List (String × List MdFile)) (per : Nat)
    (hper : 0 < per) :
    ∀ p ∈ consolidate_all channels per,
      ∃ files, (p.1, files) ∈ channels ∧
        p.2.total_transcripciones = files.length ∧
        p.2.volumenes = (consolidate_channel p.1 files per).written.map Prod.fst ∧
        p.2.archivos_omitidos =
          (if (consolidate_channel p.1 files per).skipped = [] then none
           else some ((consolidate_channel p.1 files per).skipped)) := by
  intro p hp
  rw [consolidate_all, List.mem_map] at hp
  obtain ⟨ch, hch, rfl⟩ := hp
  refine ⟨ch.2, hch, ?_, ?_, ?_⟩
  · show (consolidate_channel ch.1 ch.2 per).total = ch.2.length
    by_cases hnil : ch.2 = []
    · rw [hnil, consolidate_channel, if_pos rfl]
      rfl
    · rw [consolidate_channel_eq ch.1 ch.2 per hnil]
  · show (consolidate_channel ch.1 ch.2 per).volumes = _
    by_cases hnil : ch.2 = []
    · rw [hnil, consolidate_channel, if_pos rfl]
      rfl
    · rw [consolidate_channel_eq ch.1 ch.2 per hnil]
      simp
  · rfl

/-- C9 witness: the amended theorem at a concrete two-channel input, applied
to the manifest entry of channel "D". -/
theorem manifest_entries_spec_witness :
    ∃ files,
      ("D", files) ∈ [("C", [(⟨"a.md", "no heading"⟩ : MdFile)]),
        ("D", [⟨"b.md", "# B\nbody"⟩])] ∧
      (⟨1, ["D_Vol01.txt"], none⟩ : ManifestEntry).total_transcripciones = files.length ∧
      (⟨1, ["D_Vol01.txt"], none⟩ : ManifestEntry).volumenes =
        (consolidate_channel "D" files 100).written.map Prod.fst ∧
      (⟨1, ["D_Vol01.txt"], none⟩ : ManifestEntry).archivos_omitidos =
        (if (consolidate_channel "D" files 100).skipped = [] then none
         else some ((consolidate_channel "D" files 100).skipped)) :=
  manifest_entries_spec
    [("C", [⟨"a.md", "no heading"⟩]), ("D", [⟨"b.md", "# B\nbody"⟩])] 100
    (by norm_num) ("D", ⟨1, ["D_Vol01.txt"], none⟩) (by decide)

/-! ## Claim C8: separator placement -/

theorem validate_SEPARATOR : validate_markdown_file SEPARATOR = false := by decide

theorem filter_partsSpec (batchLen : Nat) (fs : List MdFile) :
    ∀ (idx : Nat),
      (partsSpec batchLen idx fs).filter (fun s => s != SEPARATOR) =
        (fs.filter (fun f => validate_markdown_file f.content)).map MdFile.content := by
  induction fs with
  | nil =>
    intro idx
    simp [partsSpec]
  | cons f fs ih =>
    intro idx
    rw [partsSpec]
    by_cases hv : validate_markdown_file f.content = true
    · rw [if_pos hv, List.filter_append, ih, List.filter_cons_of_pos (by simp [hv])]
      have hf : (f.content != SEPARATOR) = true := by
        simp only [bne_iff_ne, ne_eq]
        intro he
        rw [he, validate_SEPARATOR] at hv
        cases hv
      by_cases hidx : idx < batchLen - 1
      · rw [if_pos hidx]
        simp [List.filter, hf]
      · rw [if_neg hidx]
        simp [List.filter, hf]
    · rw [if_neg hv, List.filter_cons_of_neg (by simpa using hv)]
      simp [ih]

theorem partsSpec_append (batchLen : Nat) (xs : List MdFile) :
    ∀ (ys : List MdFile) (idx : Nat),
      partsSpec batchLen idx (xs ++ ys) =
        partsSpec batchLen idx xs ++ partsSpec batchLen (idx + xs.length) ys := by
  induction xs with
  | nil =>
    intro ys idx
    simp [partsSpec]
  | cons x xs ih =>
    intro ys idx
    rw [List.cons_append, partsSpec, partsSpec, ih]
    have : idx + 1 + xs.length = idx + (xs.length + 1) := by omega
    simp [this, List.append_assoc]

theorem runBatch_parts_getLast (start : Nat) (batch : List MdFile) (f : MdFile)
    (hlast : batch.getLast? = some f) (hv : validate_markdown_file f.content = true) :
    (runBatch start batch).content_parts.getLast? = some f.content := by
  obtain ⟨ys, rfl⟩ := List.getLast?_eq_some_iff.mp hlast
  rw [runBatch_eq]
  show (partsSpec (ys ++ [f]).length 0 (ys ++ [f])).getLast? = some f.content
  rw [partsSpec_append]
  rw [partsSpec, partsSpec, if_pos hv]
  rw [if_neg (by simp)]
  simp

/-- C8 counterexample: a batch of one valid and one trailing invalid document;
the loop appends the sentinel right after the only included body, which then
dangles before the index. -/
theorem separator_dangles_cex :
    validate_markdown_file "# A\nbody" = true ∧
    validate_markdown_file "no heading" = false ∧
    (runBatch 0 [⟨"a.md", "# A\nbody"⟩, ⟨"b.md", "no heading"⟩]).content_parts =
      ["# A\nbody", SEPARATOR] ∧
    (runBatch 0 [⟨"a.md", "# A\nbody"⟩, ⟨"b.md", "no heading"⟩]).content_parts.getLast? =
      some SEPARATOR := by
  refine ⟨by decide, by decide, by decide, by decide⟩

/-- C8 (amended): in every batch the included bodies appear in input order
with exactly the sentinel between consecutive included bodies, and the
sentinel is never appended after the batch's last item — in particular a
volume whose last item is included never ends its body section with the
sentinel; but when the last batch item is skipped, the sentinel appended
after the final included body dangles. -/
theorem volume_separator_spec (start : Nat) (batch : List MdFile) :
    (runBatch start batch).content_parts = partsSpec batch.length 0 batch ∧
    (runBatch start batch).content_parts.filter (fun s => s != SEPARATOR) =
      (batch.filter (fun f => validate_markdown_file f.content)).map MdFile.content ∧
    (∀ f, batch.getLast? = some f → validate_markdown_file f.content = true →
      (runBatch start batch).content_parts.getLast? = some f.content) := by
  refine ⟨?_, ?_, ?_⟩
  · rw [runBatch_eq]
  · rw [runBatch_eq]
    exact filter_partsSpec batch.length batch 0
  · intro f hlast hv
    exact runBatch_parts_getLast start batch f hlast hv

/-! ## Claim C7: volume batching -/

theorem includedCount_of_all {fs : List MdFile}
    (h : ∀ f ∈ fs, validate_markdown_file f.content = true) :
    includedCount fs = fs.length := by
  rw [includedCount, List.filter_eq_self.mpr h]

theorem entriesSpec_get? (fs : List MdFile) :
    ∀ (base i : Nat), (∀ f ∈ fs, validate_markdown_file f.content = true) →
      (entriesSpec base fs).get? i =
        (fs.get? i).map (fun f => toString (base + i + 1) ++ ". " ++ extract_title f.content) := by
  induction fs with
  | nil =>
    intro base i h
    simp [entriesSpec]
  | cons f fs ih =>
    intro base i h
    rw [entriesSpec, if_pos (h f (by simp))]
    cases i with
    | zero => simp
    | succ n =>
      rw [List.get?_cons_succ, List.get?_cons_succ,
        ih (base + 1) n (fun g hg => h g (by simp [hg]))]
      have : base + 1 + n + 1 = base + (n + 1) + 1 := by omega
      rw [this]

theorem entriesSpec_append (xs : List MdFile) :
    ∀ (ys : List MdFile) (base : Nat),
      entriesSpec base (xs ++ ys) =
        entriesSpec base xs ++ entriesSpec (base + includedCount xs) ys := by
  induction xs with
  | nil =>
    intro ys base
    simp [entriesSpec, includedCount]
  | cons x xs ih =>
    intro ys base
    by_cases hv : validate_markdown_file x.content = true
    · rw [List.cons_append, entriesSpec, if_pos hv, entriesSpec, if_pos hv, ih]
      have : base + 1 + includedCount xs = base + includedCount (x :: xs) := by
        rw [includedCount, includedCount, List.filter_cons_of_pos (by simp [hv])]
        simp only [List.length_cons]
        omega
      rw [this]
      simp
    · rw [List.cons_append, entriesSpec, if_neg hv, entriesSpec, if_neg hv, ih]
      have : includedCount (x :: xs) = includedCount xs := by
        rw [includedCount, includedCount, List.filter_cons_of_neg (by simpa using hv)]
      rw [this]

/-- C7: with 25 transcripts and batch size 10, `consolidate_channel` produces
exactly the three volumes `Vol01`, `Vol02`, `Vol03`; their batches include
10/10/5 documents; 0 transcripts produce no volumes; and the index entries are
numbered continuously across the whole collection (entry `i` carries number
`i+1`), so volume 2's first index entry is numbered 11, not 1. -/
theorem volume_batching_spec :
    (∀ (channel : String) (files : List MdFile), files.length = 25 →
      (consolidate_channel channel files 10).volumes =
        [channel ++ "_Vol01.txt", channel ++ "_Vol02.txt", channel ++ "_Vol03.txt"]) ∧
    (∀ channel : String, consolidate_channel channel [] 10 = ⟨0, [], [], []⟩) ∧
    (∀ files : List MdFile, files.length = 25 →
      (∀ f ∈ files, validate_markdown_file f.content = true) →
      (runBatch 0 (files.take 10)).included_count = 10 ∧
      (runBatch 10 ((files.drop 10).take 10)).included_count = 10 ∧
      (runBatch 20 ((files.drop 20).take 10)).included_count = 5 ∧
      (runBatch 0 (files.take 10)).index_entries ++
          (runBatch 10 ((files.drop 10).take 10)).index_entries ++
          (runBatch 20 ((files.drop 20).take 10)).index_entries =
        entriesSpec 0 files ∧
      (∀ i : Nat, (entriesSpec 0 files).get? i =
        (files.get? i).map (fun f => toString (i + 1) ++ ". " ++ extract_title f.content)) ∧
      (runBatch 10 ((files.drop 10).take 10)).index_entries.head? =
        (files.get? 10).map (fun f => "11. " ++ extract_title f.content)) := by
  refine ⟨?_, ?_, ?_⟩
  · intro channel files h25
    have hne : files ≠ [] := by
      intro he
      rw [he] at h25
      cases h25
    rw [consolidate_channel_eq channel files 10 hne]
    show (List.range ((files.length + 10 - 1) / 10)).map (volumeName channel) = _
    rw [h25]
    norm_num
    show [volumeName channel 0, volumeName channel 1, volumeName channel 2] = _
    rw [volumeName, volumeName, volumeName,
      show pad2Str (0 + 1) = "01" from by decide,
      show pad2Str (1 + 1) = "02" from by decide,
      show pad2Str (2 + 1) = "03" from by decide,
      String.append_assoc, String.append_assoc, String.append_assoc,
      String.append_assoc, String.append_assoc, String.append_assoc,
      show ("_Vol" ++ ("01" ++ ".txt") : String) = "_Vol01.txt" from by decide,
      show ("_Vol" ++ ("02" ++ ".txt") : String) = "_Vol02.txt" from by decide,
      show ("_Vol" ++ ("03" ++ ".txt") : String) = "_Vol03.txt" from by decide]
  · intro channel
    rw [consolidate_channel, if_pos rfl]
  · intro files h25 hval
    have hval1 : ∀ f ∈ files.take 10, validate_markdown_file f.content = true :=
      fun f hf => hval f (List.mem_of_mem_take hf)
    have hval2 : ∀ f ∈ (files.drop 10).take 10, validate_markdown_file f.content = true :=
      fun f hf => hval f (List.mem_of_mem_drop (List.mem_of_mem_take hf))
    have hval3 : ∀ f ∈ (files.drop 20).take 10, validate_markdown_file f.content = true :=
      fun f hf => hval f (List.mem_of_mem_drop (List.mem_of_mem_take hf))
    have hlen1 : (files.take 10).length = 10 := by
      rw [List.length_take, h25]
      decide
    have hlen2 : ((files.drop 10).take 10).length = 10 := by
      rw [List.length_take, List.length_drop, h25]
      decide
    have hlen3 : ((files.drop 20).take 10).length = 5 := by
      rw [List.length_take, List.length_drop, h25]
      decide
    have hsplit2 : (files.drop 10).take 10 ++ files.drop 20 = files.drop 10 := by
      have h1 : (files.drop 10).drop 10 = files.drop 20 := by
        rw [List.drop_drop]
      rw [← h1, List.take_append_drop]
    have hsplit : files.take 10 ++ ((files.drop 10).take 10 ++ files.drop 20) = files := by
      rw [hsplit2, List.take_append_drop]
    refine ⟨?_, ?_, ?_, ?_, ?_, ?_⟩
    · rw [runBatch_eq]
      show includedCount (files.take 10) = 10
      rw [includedCount_of_all hval1, hlen1]
    · rw [runBatch_eq]
      show includedCount ((files.drop 10).take 10) = 10
      rw [includedCount_of_all hval2, hlen2]
    · rw [runBatch_eq]
      show includedCount ((files.drop 20).take 10) = 5
      rw [includedCount_of_all hval3, hlen3]
    · rw [runBatch_eq, runBatch_eq, runBatch_eq]
      show entriesSpec 0 (files.take 10) ++ entriesSpec 10 ((files.drop 10).take 10) ++
          entriesSpec 20 ((files.drop 20).take 10) = entriesSpec 0 files
      conv_rhs => rw [← hsplit]
      rw [entriesSpec_append, entriesSpec_append]
      rw [includedCount_of_all hval1, hlen1, includedCount_of_all hval2, hlen2]
      have h520 : List.take 10 (List.drop 20 files) = List.drop 20 files :=
        List.take_of_length_le (by rw [List.length_drop, h25]; decide)
      rw [h520]
      simp only [List.append_assoc, Nat.zero_add]
    · intro i
      have h := entriesSpec_get? files 0 i hval
      simpa using h
    · rw [runBatch_eq]
      show (entriesSpec 10 ((files.drop 10).take 10)).head? = _
      rw [List.head?_eq_getElem?, ← List.get?_eq_getElem?]
      rw [entriesSpec_get? ((files.drop 10).take 10) 10 0 hval2]
      rw [List.get?_take (by norm_num), List.get?_drop]
      rfl

/-! ## `capitalize_sentences` (cleaner.py, lines 71-101) -/

/-- The sentence-ending punctuation recognized by the capitalizer. -/
def sentencePunct (c : Char) : Bool :=
  c = '.' || c = '?' || c = '!'

/-- The capitalize-next flag after processing character `c`; `isLast` tells
whether `c` is the last character of the text (`i < len(text) - 1` fails). -/
def updFlag (flag : Bool) (c : Char) (isLast : Bool) : Bool :=
  if sentencePunct c && !isLast then true
  else if flag && c.isAlpha then false
  else flag

/-- The character loop of `capitalize_sentences`: uppercase an alphabetic
character when the flag is set, then update the flag. -/
def capitalizeAux : Bool → List Char → List Char
  | _, [] => []
  | flag, c :: cs =>
    (if flag && c.isAlpha then c.toUpper else c) ::
      capitalizeAux (updFlag flag c cs.isEmpty) cs

/-- Uppercase the first character, and the first alphabetic character after
each `.`/`?`/`!` that is not the very last character. -/
def capitalize_sentences (text : String) : String :=
  match text.data with
  | [] => text
  | c :: cs => ⟨capitalizeAux false (c.toUpper :: cs)⟩

/-! ## The fixed regular expressions of cleaner.py, as explicit matchers

`subMatches m` is `re.sub(pattern, \'\', ·)` for a matcher `m` that returns the
length of the pattern match starting at the given position (the patterns
below never match the empty string), scanning for leftmost matches. -/

/-- Worker for `subMatches`, structurally recursive on `fuel`; a match always
has positive length, so every step consumes at least one character. -/
def subMatchesAux (m : List Char → Option Nat) : Nat → List Char → List Char
  | _, [] => []
  | 0, l => l
  | fuel + 1, c :: cs =>
    match m (c :: cs) with
    | some (n + 1) => subMatchesAux m fuel (cs.drop n)
    | _ => c :: subMatchesAux m fuel cs

/-- Drop every match of `m`, scanning left to right. -/
def subMatches (m : List Char → Option Nat) (l : List Char) : List Char :=
  subMatchesAux m l.length l

/-- The character class of the regex `\w` (ASCII). -/
def isWordChar (c : Char) : Bool :=
  c.isAlpha || isAsciiDigit c || c = '_'

/-- Match of `RE_POSITION_ATTRS = align:\w+|position:\d+%` at this position. -/
def posAttrMatchLen (cs : List Char) : Option Nat :=
  if "align:".data.isPrefixOf cs then
    let w := (cs.drop 6).takeWhile isWordChar
    if w ≠ [] then some (6 + w.length) else none
  else if "position:".data.isPrefixOf cs then
    let d := (cs.drop 9).takeWhile isAsciiDigit
    if d ≠ [] ∧ (cs.drop (9 + d.length)).head? = some '%' then some (9 + d.length + 1)
    else none
  else none

/-- Match of `RE_INLINE_TIMESTAMP = <\d{2}:\d{2}:\d{2}\.\d{3}>` at this position. -/
def inlineTsMatchLen : List Char → Option Nat
  | '<' :: a :: b :: ':' :: c :: d :: ':' :: e :: f :: '.' :: g :: h :: i :: '>' :: _ =>
    if ([a, b, c, d, e, f, g, h, i].all isAsciiDigit) then some 14 else none
  | _ => none

/-- Match of `RE_HTML_TAGS = <[^>]+>` at this position. -/
def htmlTagMatchLen : List Char → Option Nat
  | '<' :: cs =>
    let inner := cs.takeWhile (fun c => !(c = '>'))
    if inner ≠ [] ∧ (cs.drop inner.length).head? = some '>' then some (inner.length + 2)
    else none
  | _ => none

/-- Match of one `\d{2}:\d{2}:\d{2}\.\d{3}` group of `RE_TIMESTAMP_LINE` at
this position: the matched group and the remainder. -/
def matchTs : List Char → Option (List Char × List Char)
  | a :: b :: c1 :: c :: d :: c2 :: e :: f :: dot :: g :: h :: i :: rest =>
    if c1 = ':' ∧ c2 = ':' ∧ dot = '.' ∧ ([a, b, c, d, e, f, g, h, i].all isAsciiDigit) then
      some ([a, b, c1, c, d, c2, e, f, dot, g, h, i], rest)
    else none
  | _ => none

/-- Match of the `\s*-->\s*` part of `RE_TIMESTAMP_LINE` at this position. -/
def matchArrow (cs : List Char) : Option (List Char) :=
  match cs.dropWhile pyWs with
  | '-' :: '-' :: '>' :: rest => some (rest.dropWhile pyWs)
  | _ => none

/-- Match of the full `RE_TIMESTAMP_LINE` at this position: both groups. -/
def matchCueTiming (cs : List Char) : Option (List Char × List Char) :=
  match matchTs cs with
  | none => none
  | some (g1, r1) =>
    match matchArrow r1 with
    | none => none
    | some r2 =>
      match matchTs r2 with
      | none => none
      | some (g2, _) => some (g1, g2)

/-- `RE_TIMESTAMP_LINE.search`: the leftmost match of the cue-timing pattern. -/
def searchCueTiming : List Char → Option (List Char × List Char)
  | [] => none
  | c :: cs =>
    match matchCueTiming (c :: cs) with
    | some r => some r
    | none => searchCueTiming cs

/-! ## The line sanitizer (cleaner.py, lines 163-193) -/

/-- The fixed useless-marker phrases (cleaner.py, lines 32-37; a Python `set`,
iterated here in source order — no marker is a substring of another, so the
iteration order of the removal loop does not matter). -/
def USELESS_MARKERS : List String :=
  ["[music]", "[applause]", "[laughter]", "[cheering]", "[silence]",
   "[inaudible]", "[crosstalk]", "[noise]", "[background noise]",
   "[foreign]", "[speaking foreign language]", "[no audio]",
   "[pause]", "[sighs]", "[coughs]", "[clears throat]"]

/-- Lines 164-180: strip position attributes, inline timestamps and HTML tags,
replace the four HTML entities and double spaces, and strip. -/
def sanitizeStage (line : String) : List Char :=
  let l1 := pyStripList (subMatches posAttrMatchLen line.data)
  let l2 := subMatches inlineTsMatchLen l1
  let l3 := subMatches htmlTagMatchLen l2
  let l4 := pyReplaceList "&nbsp;".data " ".data l3
  let l5 := pyReplaceList "&amp;".data "&".data l4
  let l6 := pyReplaceList "&#39;".data "\'".data l5
  let l7 := pyReplaceList "&quot;".data "\"".data l6
  pyReplaceList "  ".data " ".data l7

def sanitizePlainText (line : String) : String :=
  ⟨pyStripList (sanitizeStage line)⟩

/-- Lines 188-190: remove (case-insensitively) every marker occurrence, with a
strip after each removal; used only for the emptiness test. -/
def removeMarkers (p : String) : String :=
  USELESS_MARKERS.foldl
    (fun acc m => ⟨pyStripList (pyReplaceList m.data [] (pyLowerList acc.data))⟩) p

/-- Lines 163-193: sanitize a text line; `none` when the marker filter
discards it. -/
def processTextLine (line : String) : Option String :=
  let plain := sanitizePlainText line
  if pyLower plain ∈ USELESS_MARKERS then none
  else if removeMarkers plain = "" then none
  else some plain

/-! ## The first pass of `clean_vtt_content` (cleaner.py, lines 120-207) -/

/-- What one raw line means to the loop. -/
inductive LineKind where
  | skip
  | cue (startTime endTime : Option Rat)
  | text (plain : String)
deriving DecidableEq

/-- Lines 130-139: the metadata test on the stripped line. -/
def isMetaLine (line : String) : Bool :=
  line = "" || line = "WEBVTT" || pyStartsWith "Kind:" line ||
    pyStartsWith "Language:" line || pyIsdigit line

/-- Classify one raw line the way the loop body does: strip, metadata test,
cue-timing search, text sanitization. -/
def classifyLine (raw : String) : LineKind :=
  let line := pyStrip raw
  if isMetaLine line then LineKind.skip
  else
    match searchCueTiming line.data with
    | some (g1, g2) =>
      LineKind.cue (parse_vtt_timestamp ⟨g1⟩) (parse_vtt_timestamp ⟨g2⟩)
    | none =>
      match processTextLine line with
      | none => LineKind.skip
      | some p => LineKind.text p

/-- One finished block of the first pass. -/
structure Block where
  text : List String
  is_new_paragraph : Bool
deriving DecidableEq

/-- The loop state of the first pass. -/
structure SegState where
  blocks : List Block
  current_end_time : Option Rat
  current_block_text : List String
  seen_lines : List String
deriving DecidableEq

/-- One iteration of the line loop. -/
def segStep (pause_threshold : Rat) (st : SegState) (raw : String) : SegState :=
  match classifyLine raw with
  | LineKind.skip => st
  | LineKind.cue startTime endTime =>
    let st' : SegState :=
      match st.current_end_time, startTime with
      | some ce, some s =>
        if pause_threshold ≤ s - ce ∧ st.current_block_text ≠ [] then
          { st with
            blocks := st.blocks ++ [⟨st.current_block_text, true⟩]
            current_block_text := []
            seen_lines := [] }
        else st
      | _, _ => st
    { st' with current_end_time := endTime }
  | LineKind.text p =>
    if p ≠ "" ∧ p ∉ st.seen_lines then
      { st with
        current_block_text := st.current_block_text ++ [p]
        seen_lines := st.seen_lines ++ [p] }
    else st

/-- The first pass over all lines. -/
def segRun (pause_threshold : Rat) (lines : List String) : SegState :=
  lines.foldl (segStep pause_threshold) ⟨[], none, [], []⟩

/-- Lines 202-207: close the trailing block. -/
def finalBlocks (st : SegState) : List Block :=
  st.blocks ++ (if st.current_block_text ≠ [] then [⟨st.current_block_text, false⟩] else [])

/-- Python `sep.join(parts)`. -/
def pyJoin (sep : String) : List String → String
  | [] => ""
  | [s] => s
  | s :: rest => s ++ sep ++ pyJoin sep rest

/-- Lines 216-220: join a block's lines with spaces, collapse whitespace runs,
strip. -/
def blockParagraph (b : Block) : String :=
  ⟨pyStripList (collapseWsList (pyJoin " " b.text).data)⟩

/-- Lines 209-223: the non-empty paragraphs, in order. -/
def paragraphsOf (blocks : List Block) : List String :=
  blocks.filterMap fun b =>
    if b.text = [] then none
    else
      let par := blockParagraph b
      if par ≠ "" then some par else none

/-- `clean_vtt_content` (cleaner.py, lines 104-231). -/
def clean_vtt_content (content : String) (pause_threshold : Rat := 5 / 2) : String :=
  if content = "" then ""
  else
    let st := segRun pause_threshold (pySplitlines content)
    let final_text := pyJoin "\n\n" (paragraphsOf (finalBlocks st))
    capitalize_sentences final_text

/-! ## Character facts for the capitalizer -/

theorem charToNat_ofNat_lt {n : Nat} (h : n < 55296) : (Char.ofNat n).toNat = n := by
  have hv : n.isValidChar := Or.inl h
  rw [Char.ofNat, dif_pos hv]
  simp [Char.ofNatAux, Char.toNat, UInt32.toNat]

theorem isAlpha_iff (c : Char) :
    c.isAlpha = true ↔ (65 ≤ c.toNat ∧ c.toNat ≤ 90) ∨ (97 ≤ c.toNat ∧ c.toNat ≤ 122) := by
  simp [Char.isAlpha, Char.isUpper, Char.isLower, UInt32.le_def, BitVec.le_def,
    Char.toNat, UInt32.toNat]

theorem char_eq_iff_toNat {a b : Char} : a = b ↔ a.toNat = b.toNat := by
  constructor
  · intro h
    rw [h]
  · intro h
    apply Char.ext
    apply UInt32.toNat.inj
    exact h

theorem sentencePunct_iff (c : Char) :
    sentencePunct c = true ↔ c.toNat = 46 ∨ c.toNat = 63 ∨ c.toNat = 33 := by
  rw [sentencePunct]
  simp only [Bool.or_eq_true, decide_eq_true_eq]
  rw [char_eq_iff_toNat, char_eq_iff_toNat, char_eq_iff_toNat]
  rw [show ('.' : Char).toNat = 46 from rfl, show ('?' : Char).toNat = 63 from rfl,
    show ('!' : Char).toNat = 33 from rfl]
  tauto

theorem toUpper_isAlpha (c : Char) : (Char.toUpper c).isAlpha = c.isAlpha := by
  rw [Char.toUpper]
  split
  · rename_i hn
    have h2 : (Char.ofNat (c.toNat - 32)).toNat = c.toNat - 32 :=
      charToNat_ofNat_lt (by omega)
    have ha : (Char.ofNat (c.toNat - 32)).isAlpha = true := by
      rw [isAlpha_iff, h2]
      omega
    have hb : c.isAlpha = true := by
      rw [isAlpha_iff]
      omega
    rw [ha, hb]
  · rfl

theorem toUpper_sentencePunct (c : Char) :
    sentencePunct (Char.toUpper c) = sentencePunct c := by
  rw [Char.toUpper]
  split
  · rename_i hn
    have h2 : (Char.ofNat (c.toNat - 32)).toNat = c.toNat - 32 :=
      charToNat_ofNat_lt (by omega)
    have ha : sentencePunct (Char.ofNat (c.toNat - 32)) = false := by
      rw [← Bool.not_eq_true, sentencePunct_iff, h2]
      omega
    have hb : sentencePunct c = false := by
      rw [← Bool.not_eq_true, sentencePunct_iff]
      omega
    rw [ha, hb]
  · rfl

theorem toLower_toNat (c : Char) :
    c.toLower.toNat = if 65 ≤ c.toNat ∧ c.toNat ≤ 90 then c.toNat + 32 else c.toNat := by
  rw [Char.toLower]
  split
  · rename_i hn
    rw [charToNat_ofNat_lt (by omega)]
  · rfl

theorem toLower_idem (c : Char) : c.toLower.toLower = c.toLower := by
  apply char_eq_iff_toNat.mpr
  have h1 := toLower_toNat c
  have h2 := toLower_toNat c.toLower
  rw [h2, h1]
  split_ifs <;> omega

/-! ## The capitalize-next flag, positionally -/

/-- The value of the capitalize-next flag when the loop reaches offset `k` of
`l`, having entered `l` with flag value `flag`. -/
def flagAt : Bool → List Char → Nat → Bool
  | flag, _, 0 => flag
  | flag, [], _ + 1 => flag
  | flag, c :: cs, k + 1 => flagAt (updFlag flag c cs.isEmpty) cs k

theorem capitalizeAux_length (flag : Bool) (l : List Char) :
    (capitalizeAux flag l).length = l.length := by
  induction l generalizing flag with
  | nil => rfl
  | cons c cs ih =>
    rw [capitalizeAux, List.length_cons, List.length_cons, ih]

theorem capitalizeAux_get? (l : List Char) :
    ∀ (flag : Bool) (k : Nat),
      (capitalizeAux flag l).get? k =
        (l.get? k).map (fun c => if flagAt flag l k && c.isAlpha then c.toUpper else c) := by
  induction l with
  | nil =>
    intro flag k
    rfl
  | cons c cs ih =>
    intro flag k
    cases k with
    | zero => rfl
    | succ n =>
      rw [capitalizeAux, List.get?_cons_succ, List.get?_cons_succ, ih]
      rfl

theorem toUpper_toNat (c : Char) :
    c.toUpper.toNat = if 97 ≤ c.toNat ∧ c.toNat ≤ 122 then c.toNat - 32 else c.toNat := by
  rw [Char.toUpper]
  split
  · rename_i hn
    rw [charToNat_ofNat_lt (by omega)]
  · rfl

theorem toUpper_eq_lf {c : Char} (h : c.toUpper = '\n') : c = '\n' := by
  rw [char_eq_iff_toNat] at h ⊢
  rw [toUpper_toNat] at h
  rw [show ('\n').toNat = 10 from rfl] at h ⊢
  split_ifs at h <;> omega

theorem capitalize_sentences_data (s : String) (c : Char) (cs : List Char)
    (h : s.data = c :: cs) :
    (capitalize_sentences s).data = capitalizeAux false (c.toUpper :: cs) := by
  rw [capitalize_sentences]
  split
  · rename_i heq
    rw [h] at heq
    cases heq
  · rename_i c' cs' heq
    rw [h] at heq
    injection heq with h1 h2
    rw [h1, h2]

theorem capitalize_sentences_length (s : String) :
    (capitalize_sentences s).data.length = s.data.length := by
  cases hd : s.data with
  | nil =>
    rw [capitalize_sentences]
    split
    · rw [hd]
    · rename_i c' cs' heq
      rw [hd] at heq
      cases heq
  | cons c cs =>
    rw [capitalize_sentences_data s c cs hd, capitalizeAux_length]
    simp

theorem capitalize_get_lf (s : String) (k : Nat) (h : s.data.get? k = some '\n') :
    (capitalize_sentences s).data.get? k = some '\n' := by
  cases hd : s.data with
  | nil =>
    rw [hd] at h
    cases h
  | cons c cs =>
    rw [capitalize_sentences_data s c cs hd, capitalizeAux_get?]
    rw [hd] at h
    cases k with
    | zero =>
      rw [List.get?_cons_zero] at h ⊢
      injection h with h
      subst h
      rw [show Char.toUpper '\n' = '\n' from rfl]
      simp [flagAt, show ('\n').isAlpha = false from rfl]
    | succ n =>
      rw [List.get?_cons_succ] at h ⊢
      rw [h]
      simp [show ('\n').isAlpha = false from rfl]

theorem capitalize_double_newline (s x y : String)
    (h : s.data = x.data ++ '\n' :: '\n' :: y.data) :
    ∃ l r : String, capitalize_sentences s = l ++ "\n\n" ++ r ∧
      l.data.length = x.data.length := by
  set n := x.data.length with hn
  set out := capitalize_sentences s with hout
  have hlen : out.data.length = n + 2 + y.data.length := by
    rw [hout, capitalize_sentences_length, h]
    simp only [List.length_append, List.length_cons]
    omega
  have h1 : s.data.get? n = some '\n' := by
    rw [h, List.get?_append_right (by omega)]
    simp [hn]
  have h2 : s.data.get? (n + 1) = some '\n' := by
    rw [h, List.get?_append_right (by omega)]
    have : n + 1 - x.data.length = 1 := by omega
    rw [this]
    rfl
  have o1 : out.data.get? n = some '\n' := capitalize_get_lf s n h1
  have o2 : out.data.get? (n + 1) = some '\n' := capitalize_get_lf s (n + 1) h2
  have hsplit : out.data = out.data.take n ++ '\n' :: '\n' :: out.data.drop (n + 2) := by
    have e1 : out.data.drop n = '\n' :: out.data.drop (n + 1) := by
      rw [List.drop_eq_getElem_cons (by omega)]
      have := List.get?_eq_getElem? out.data n
      rw [o1] at this
      have h3 : out.data[n]? = some '\n' := this.symm
      rw [List.getElem?_eq_getElem (by omega)] at h3
      injection h3 with h3
      rw [h3]
    have e2 : out.data.drop (n + 1) = '\n' :: out.data.drop (n + 2) := by
      rw [List.drop_eq_getElem_cons (by omega)]
      have := List.get?_eq_getElem? out.data (n + 1)
      rw [o2] at this
      have h3 : out.data[n + 1]? = some '\n' := this.symm
      rw [List.getElem?_eq_getElem (by omega)] at h3
      injection h3 with h3
      rw [h3]
    conv_lhs => rw [← List.take_append_drop n out.data]
    rw [e1, e2]
  refine ⟨⟨out.data.take n⟩, ⟨out.data.drop (n + 2)⟩, ?_, ?_⟩
  · apply String.ext
    rw [String.data_append, String.data_append]
    rw [show ("\n\n" : String).data = ['\n', '\n'] from rfl]
    simpa using hsplit
  · simp only [List.length_take]
    omega

theorem capitalize_no_newline (s : String) (h : ¬ '\n' ∈ s.data) :
    ¬ '\n' ∈ (capitalize_sentences s).data := by
  intro hmem
  cases hd : s.data with
  | nil =>
    have hid : capitalize_sentences s = s := by
      rw [capitalize_sentences]
      split
      · rfl
      · rename_i c' cs' heq
        rw [hd] at heq
        cases heq
    rw [hid, hd] at hmem
    simp at hmem
  | cons c cs =>
    rw [capitalize_sentences_data s c cs hd] at hmem
    obtain ⟨k, hk⟩ := List.mem_iff_get?.mp hmem
    rw [capitalizeAux_get?] at hk
    cases hg : (c.toUpper :: cs).get? k with
    | none =>
      rw [hg] at hk
      cases hk
    | some d =>
      rw [hg] at hk
      simp only [Option.map_some', Option.some.injEq] at hk
      have hd' : d = '\n' := by
        by_cases ha : (flagAt false (c.toUpper :: cs) k && d.isAlpha) = true
        · rw [if_pos ha] at hk
          exact toUpper_eq_lf hk
        · rw [if_neg ha] at hk
          exact hk
      subst hd'
      apply h
      rw [hd]
      cases k with
      | zero =>
        rw [List.get?_cons_zero] at hg
        injection hg with hg
        have : c = '\n' := toUpper_eq_lf hg
        rw [this]
        simp
      | succ m =>
        rw [List.get?_cons_succ] at hg
        exact List.mem_cons_of_mem c (List.get?_mem hg)

/-! ## Classifying a well-formed cue-timing line -/

/-- A cue-timing line `HH:MM:SS.mmm --> HH:MM:SS.mmm`. -/
def cueLine (a b : TsParts) : String :=
  tsString a ++ " --> " ++ tsString b

theorem cueLine_data (a b : TsParts) :
    (cueLine a b).data = tsChars a ++ ' ' :: '-' :: '-' :: '>' :: ' ' :: tsChars b := by
  rw [cueLine, String.data_append, String.data_append]
  rw [show (" --> " : String).data = [' ', '-', '-', '>', ' '] from rfl]
  rfl

theorem lineBoundary_dchar {k : Nat} (h : k < 10) : lineBoundary (dchar k) = false := by
  interval_cases k <;> decide

@[simp] theorem lineBoundary_dchar_mod (k : Nat) : lineBoundary (dchar (k % 10)) = false :=
  lineBoundary_dchar (mod10_lt k)

/-- No character of a string crosses a `splitlines` boundary. -/
def boundaryFree (s : String) : Prop :=
  ∀ c ∈ s.data, lineBoundary c = false

theorem boundaryFree_tsChars (t : TsParts) : ∀ c ∈ tsChars t, lineBoundary c = false := by
  intro c hc
  simp only [tsChars, pad2, pad3, List.mem_append, List.mem_cons,
    List.not_mem_nil, or_false] at hc
  rcases hc with ⟨rfl | rfl⟩ | rfl | ⟨rfl | rfl⟩ | rfl | ⟨rfl | rfl⟩ | rfl | rfl | rfl | rfl
  all_goals first
  | exact lineBoundary_dchar_mod _
  | decide

theorem boundaryFree_cueLine (a b : TsParts) : boundaryFree (cueLine a b) := by
  intro c hc
  rw [cueLine_data] at hc
  simp only [List.mem_append, List.mem_cons] at hc
  rcases hc with hc | rfl | rfl | rfl | rfl | rfl | hc
  · exact boundaryFree_tsChars a c hc
  all_goals first
  | exact boundaryFree_tsChars b c (by assumption)
  | decide

theorem tsChars_head? (t : TsParts) :
    (tsChars t).head? = some (dchar (t.hh / 10 % 10)) := by
  simp [tsChars, pad2]

theorem tsChars_getLast? (t : TsParts) :
    (tsChars t).getLast? = some (dchar (t.ms % 10)) := by
  simp [tsChars, pad2, pad3, List.getLast?_append]

theorem pyStrip_cueLine (a b : TsParts) : pyStrip (cueLine a b) = cueLine a b := by
  apply String.ext
  show pyStripList (cueLine a b).data = (cueLine a b).data
  apply pyStripList_eq_self
  · intro c hc
    rw [cueLine_data] at hc
    simp only [tsChars, pad2, List.cons_append, List.head?_cons, Option.some.injEq] at hc
    rw [← hc]
    exact pyWs_dchar_mod _
  · intro c hc
    have hdata : (cueLine a b).data =
        tsChars a ++ ([' ', '-', '-', '>', ' '] ++ tsChars b) := by
      rw [cueLine_data]
      rfl
    rw [hdata, List.getLast?_append, List.getLast?_append, tsChars_getLast?] at hc
    simp only [Option.or_some, Option.some.injEq] at hc
    rw [← hc]
    exact pyWs_dchar_mod _

theorem dchar_mod_beq_false {c : Char} (hc : isAsciiDigit c = false) (k : Nat) :
    (c == dchar (k % 10)) = false := by
  rw [beq_eq_false_iff_ne]
  intro he
  exact dchar_ne_of_not_digit (mod10_lt k) hc he.symm

theorem isPrefixOf_dchar_false {c : Char} (hc : isAsciiDigit c = false)
    (l r : List Char) (k : Nat) :
    List.isPrefixOf (c :: l) (dchar (k % 10) :: r) = false := by
  show (c == dchar (k % 10) && List.isPrefixOf l r) = false
  rw [dchar_mod_beq_false hc]
  rfl

theorem isMetaLine_cueLine (a b : TsParts) : isMetaLine (cueLine a b) = false := by
  have h1 : (cueLine a b = "") = False := by
    simp only [eq_iff_iff, iff_false]
    intro he
    have := congrArg String.data he
    rw [cueLine_data] at this
    simp [tsChars, pad2] at this
  have h2 : (cueLine a b = "WEBVTT") = False := by
    simp only [eq_iff_iff, iff_false]
    intro he
    have := congrArg String.data he
    rw [cueLine_data] at this
    simp only [tsChars, pad2, List.cons_append, List.nil_append,
      show ("WEBVTT" : String).data = ['W', 'E', 'B', 'V', 'T', 'T'] from rfl,
      List.cons.injEq] at this
    exact dchar_ne_of_not_digit (mod10_lt _) (by decide) this.1
  have h3 : pyStartsWith "Kind:" (cueLine a b) = false := by
    rw [pyStartsWith, cueLine_data]
    simp only [tsChars, pad2, List.cons_append, List.nil_append,
      show ("Kind:" : String).data = ['K', 'i', 'n', 'd', ':'] from rfl]
    exact isPrefixOf_dchar_false (by decide) _ _ _
  have h4 : pyStartsWith "Language:" (cueLine a b) = false := by
    rw [pyStartsWith, cueLine_data]
    simp only [tsChars, pad2, List.cons_append, List.nil_append,
      show ("Language:" : String).data = ['L', 'a', 'n', 'g', 'u', 'a', 'g', 'e', ':'] from rfl]
    exact isPrefixOf_dchar_false (by decide) _ _ _
  have h5 : pyIsdigit (cueLine a b) = false := by
    rw [pyIsdigit, cueLine_data]
    simp [tsChars, pad2, pad3, show isAsciiDigit ':' = false from by decide]
  simp [isMetaLine, h1, h2, h3, h4, h5]

theorem matchTs_tsChars (t : TsParts) (r : List Char) :
    matchTs (tsChars t ++ r) = some (tsChars t, r) := by
  show matchTs (dchar (t.hh / 10 % 10) :: dchar (t.hh % 10) :: ':' ::
    dchar (t.mm / 10 % 10) :: dchar (t.mm % 10) :: ':' ::
    dchar (t.ss / 10 % 10) :: dchar (t.ss % 10) :: '.' ::
    dchar (t.ms / 100 % 10) :: dchar (t.ms / 10 % 10) :: dchar (t.ms % 10) :: r) = _
  rw [matchTs]
  rw [if_pos ⟨rfl, rfl, rfl, by simp⟩]
  rfl

theorem dropWhile_pyWs_tsChars (t : TsParts) :
    (tsChars t).dropWhile pyWs = tsChars t := by
  apply dropWhile_eq_self_of_head
  intro c hc
  rw [tsChars_head?] at hc
  injection hc with hc
  rw [← hc]
  exact pyWs_dchar_mod _

theorem matchArrow_spec (t : TsParts) :
    matchArrow (' ' :: '-' :: '-' :: '>' :: ' ' :: tsChars t) = some (tsChars t) := by
  rw [matchArrow]
  rw [show (' ' :: '-' :: '-' :: '>' :: ' ' :: tsChars t).dropWhile pyWs =
    '-' :: '-' :: '>' :: (' ' :: tsChars t) from by
      rw [List.dropWhile_cons, if_pos (by decide), List.dropWhile_cons, if_neg (by decide)]]
  show some ((' ' :: tsChars t).dropWhile pyWs) = _
  rw [List.dropWhile_cons, if_pos (by decide), dropWhile_pyWs_tsChars]

theorem matchTs_tsChars_nil (t : TsParts) : matchTs (tsChars t) = some (tsChars t, []) := by
  have h := matchTs_tsChars t []
  rwa [List.append_nil] at h

theorem matchCueTiming_cueLine (a b : TsParts) :
    matchCueTiming (cueLine a b).data = some (tsChars a, tsChars b) := by
  rw [cueLine_data]
  simp only [matchCueTiming, matchTs_tsChars, matchArrow_spec, matchTs_tsChars_nil]

theorem searchCueTiming_cueLine (a b : TsParts) :
    searchCueTiming (cueLine a b).data = some (tsChars a, tsChars b) := by
  have hm := matchCueTiming_cueLine a b
  rw [cueLine_data] at hm ⊢
  rw [show tsChars a ++ ' ' :: '-' :: '-' :: '>' :: ' ' :: tsChars b =
    dchar (a.hh / 10 % 10) :: (dchar (a.hh % 10) :: ':' ::
      dchar (a.mm / 10 % 10) :: dchar (a.mm % 10) :: ':' ::
      dchar (a.ss / 10 % 10) :: dchar (a.ss % 10) :: '.' ::
      dchar (a.ms / 100 % 10) :: dchar (a.ms / 10 % 10) :: dchar (a.ms % 10) ::
      ' ' :: '-' :: '-' :: '>' :: ' ' :: tsChars b) from rfl] at hm ⊢
  rw [searchCueTiming, hm]

theorem classify_cueLine (a b : TsParts) :
    classifyLine (cueLine a b) =
      LineKind.cue (some (tsSeconds a)) (some (tsSeconds b)) := by
  rw [classifyLine]
  simp only [pyStrip_cueLine, isMetaLine_cueLine, Bool.false_eq_true, if_false,
    searchCueTiming_cueLine]
  rw [show (⟨tsChars a⟩ : String) = tsString a from rfl,
    show (⟨tsChars b⟩ : String) = tsString b from rfl,
    parse_tsString, parse_tsString]

/-! ## Splitting a document built from newline-joined lines -/

theorem splitlinesAux_append_nl (l : List Char) :
    ∀ (acc rest : List Char), (∀ c ∈ l, lineBoundary c = false) →
      splitlinesAux acc (l ++ '\n' :: rest) =
        (acc.reverse ++ l) :: splitlinesAux [] rest := by
  induction l with
  | nil =>
    intro acc rest _
    rw [List.nil_append, splitlinesAux, if_pos (by decide)]
    simp
  | cons c l ih =>
    intro acc rest hb
    have hc : lineBoundary c = false := hb c (by simp)
    rw [List.cons_append, splitlinesAux, if_neg (by rw [hc]; simp)]
    rw [ih (c :: acc) rest (fun d hd => hb d (by simp [hd]))]
    simp

theorem splitlinesAux_no_boundary (l : List Char) :
    ∀ (acc : List Char), (∀ c ∈ l, lineBoundary c = false) → acc.reverse ++ l ≠ [] →
      splitlinesAux acc l = [acc.reverse ++ l] := by
  induction l with
  | nil =>
    intro acc _ hne
    rw [splitlinesAux, if_neg (by simpa using hne)]
    simp
  | cons c l ih =>
    intro acc hb hne
    have hc : lineBoundary c = false := hb c (by simp)
    rw [splitlinesAux, if_neg (by rw [hc]; simp)]
    rw [ih (c :: acc) (fun d hd => hb d (by simp [hd])) (by simp)]
    simp

theorem pyReplaceAux_no_cr :
    ∀ (fuel : Nat) (l : List Char), (∀ c ∈ l, c ≠ '\r') →
      pyReplaceAux ['\r', '\n'] ['\n'] fuel l = l := by
  intro fuel
  induction fuel with
  | zero =>
    intro l _
    cases l <;> rfl
  | succ fuel ih =>
    intro l hl
    cases l with
    | nil => rfl
    | cons c cs =>
      have hc : c ≠ '\r' := hl c (by simp)
      rw [pyReplaceAux, if_neg, ih cs (fun d hd => hl d (by simp [hd]))]
      intro hand
      have hpre := hand.2
      simp only [List.isPrefixOf, Bool.and_eq_true, beq_iff_eq] at hpre
      exact hc hpre.1.symm

theorem pyReplaceList_no_cr (l : List Char) (h : ∀ c ∈ l, c ≠ '\r') :
    pyReplaceList ['\r', '\n'] ['\n'] l = l :=
  pyReplaceAux_no_cr l.length l h

theorem ne_cr_of_boundaryFree {s : String} (h : boundaryFree s) :
    ∀ c ∈ s.data, c ≠ '\r' := by
  intro c hc he
  have hb := h c hc
  rw [he] at hb
  exact absurd hb (by decide)

/-- The two-cue document of claim C1. -/
def vttDoc2 (L1 t1 L2 t2 : String) : String :=
  L1 ++ "\n" ++ t1 ++ "\n" ++ L2 ++ "\n" ++ t2

theorem pySplitlines_vttDoc2 (L1 t1 L2 t2 : String)
    (h1 : boundaryFree L1) (h2 : boundaryFree t1) (h3 : boundaryFree L2)
    (h4 : boundaryFree t2) (hne : t2.data ≠ []) :
    pySplitlines (vttDoc2 L1 t1 L2 t2) = [L1, t1, L2, t2] := by
  have hdata : (vttDoc2 L1 t1 L2 t2).data =
      L1.data ++ '\n' :: (t1.data ++ '\n' :: (L2.data ++ '\n' :: t2.data)) := by
    rw [vttDoc2]
    simp only [String.data_append, show ("\n" : String).data = ['\n'] from rfl]
    simp [List.append_assoc]
  have hnocr : ∀ c ∈ (vttDoc2 L1 t1 L2 t2).data, c ≠ '\r' := by
    rw [hdata]
    intro c hc
    simp only [List.mem_append, List.mem_cons] at hc
    rcases hc with hc | hc | hc | hc | hc | hc | hc
    · exact ne_cr_of_boundaryFree h1 c hc
    · rw [hc]; decide
    · exact ne_cr_of_boundaryFree h2 c hc
    · rw [hc]; decide
    · exact ne_cr_of_boundaryFree h3 c hc
    · rw [hc]; decide
    · exact ne_cr_of_boundaryFree h4 c hc
  rw [pySplitlines, pyReplaceList_no_cr _ hnocr, hdata]
  rw [splitlinesAux_append_nl L1.data [] _ h1]
  rw [splitlinesAux_append_nl t1.data [] _ h2]
  rw [splitlinesAux_append_nl L2.data [] _ h3]
  rw [splitlinesAux_no_boundary t2.data [] h4 (by simpa using hne)]
  simp

/-! ## Facts about surviving text lines -/

theorem removeMarkers_empty : removeMarkers "" = "" := by decide

theorem processTextLine_some {line p : String} (h : processTextLine line = some p) :
    p = sanitizePlainText line ∧ p ≠ "" ∧ removeMarkers p ≠ "" := by
  rw [processTextLine] at h
  split at h
  · cases h
  · split at h
    · cases h
    · rename_i hrm
      injection h with h
      subst h
      refine ⟨rfl, ?_, hrm⟩
      intro he
      rw [he, removeMarkers_empty] at hrm
      exact hrm rfl

theorem classify_text_inv {raw p : String} (h : classifyLine raw = LineKind.text p) :
    processTextLine (pyStrip raw) = some p := by
  simp only [classifyLine] at h
  split at h
  · cases h
  · split at h
    · cases h
    · split at h
      · cases h
      · rename_i hp
        rw [LineKind.text.injEq] at h
        rw [hp, h]

theorem classify_text_ne_empty {raw p : String} (h : classifyLine raw = LineKind.text p) :
    p ≠ "" :=
  ((processTextLine_some (classify_text_inv h)).2).1

/-! ## Non-emptiness of the produced paragraphs -/

theorem mem_dropWhile_of_not {p : Char → Bool} {c : Char} :
    ∀ {l : List Char}, c ∈ l → p c = false → c ∈ l.dropWhile p
  | [], hc, _ => by cases hc
  | x :: xs, hc, hp => by
    rw [List.dropWhile_cons]
    split
    · rename_i hx
      rcases List.mem_cons.mp hc with rfl | hc'
      · rw [hp] at hx
        cases hx
      · exact mem_dropWhile_of_not hc' hp
    · exact hc

theorem mem_pyStripList {c : Char} {l : List Char} (hc : c ∈ l) (hp : pyWs c = false) :
    c ∈ pyStripList l := by
  rw [pyStripList]
  rw [List.mem_reverse]
  apply mem_dropWhile_of_not _ hp
  rw [List.mem_reverse]
  exact mem_dropWhile_of_not hc hp

theorem mem_of_mem_pyStripList {c : Char} {l : List Char} (hc : c ∈ pyStripList l) :
    c ∈ l := by
  rw [pyStripList, List.mem_reverse] at hc
  have h1 := (List.dropWhile_sublist _).mem hc
  rw [List.mem_reverse] at h1
  exact (List.dropWhile_sublist _).mem h1

theorem head_dropWhile_not {p : Char → Bool} :
    ∀ {l : List Char} {d : Char} {m : List Char}, l.dropWhile p = d :: m → p d = false
  | [], d, m, h => by cases h
  | x :: xs, d, m, h => by
    rw [List.dropWhile_cons] at h
    split at h
    · exact head_dropWhile_not h
    · rename_i hx
      injection h with h1 _
      subst h1
      simpa using hx

theorem exists_nonws_of_strip_ne_nil {l : List Char} (h : pyStripList l ≠ []) :
    ∃ c ∈ pyStripList l, pyWs c = false := by
  rw [pyStripList] at h ⊢
  cases hm : ((l.dropWhile pyWs).reverse.dropWhile pyWs) with
  | nil =>
    rw [hm] at h
    simp at h
  | cons d m =>
    refine ⟨d, ?_, head_dropWhile_not hm⟩
    simp

theorem lf_not_mem_collapseAux :
    ∀ (l : List Char) (flag : Bool), ¬ '\n' ∈ collapseAux flag l := by
  intro l
  induction l with
  | nil =>
    intro flag h
    cases h
  | cons c cs ih =>
    intro flag
    rw [collapseAux]
    split
    · split
      · exact ih true
      · intro hmem
        rcases List.mem_cons.mp hmem with he | hmem'
        · cases he
        · exact ih true hmem'
    · rename_i hws
      intro hmem
      rcases List.mem_cons.mp hmem with he | hmem'
      · rw [← he] at hws
        simp [pyWs] at hws
      · exact ih false hmem'

theorem lf_not_mem_collapseWsList (l : List Char) : ¬ '\n' ∈ collapseWsList l :=
  lf_not_mem_collapseAux l false

theorem mem_collapseAux {c : Char} (hp : pyWs c = false) :
    ∀ {l : List Char} (flag : Bool), c ∈ l → c ∈ collapseAux flag l := by
  intro l
  induction l with
  | nil =>
    intro flag h
    cases h
  | cons x cs ih =>
    intro flag hmem
    rw [collapseAux]
    split
    · rename_i hws
      have hmem' : c ∈ cs := by
        rcases List.mem_cons.mp hmem with rfl | hmem'
        · rw [hp] at hws
          cases hws
        · exact hmem'
      split
      · exact ih true hmem'
      · exact List.mem_cons_of_mem _ (ih true hmem')
    · rcases List.mem_cons.mp hmem with rfl | hmem'
      · exact List.mem_cons_self _ _
      · exact List.mem_cons_of_mem _ (ih false hmem')

theorem mem_collapseWsList {c : Char} (hp : pyWs c = false) {l : List Char}
    (h : c ∈ l) : c ∈ collapseWsList l :=
  mem_collapseAux hp false h

theorem blockParagraph_ne_empty {texts : List String} {flag : Bool}
    (h : ∃ c ∈ (pyJoin " " texts).data, pyWs c = false) :
    blockParagraph ⟨texts, flag⟩ ≠ "" := by
  obtain ⟨c, hc, hp⟩ := h
  intro he
  have : c ∈ pyStripList (collapseWsList (pyJoin " " texts).data) :=
    mem_pyStripList (mem_collapseWsList hp hc) hp
  rw [show pyStripList (collapseWsList (pyJoin " " texts).data) =
    (blockParagraph ⟨texts, flag⟩).data from rfl, he] at this
  simp at this

theorem surviving_line_nonws {line p : String} (h : processTextLine line = some p) :
    ∃ c ∈ p.data, pyWs c = false := by
  obtain ⟨hp, hne, -⟩ := processTextLine_some h
  have hdata : p.data = pyStripList (sanitizeStage line) := by
    rw [hp, sanitizePlainText]
  rw [hdata]
  apply exists_nonws_of_strip_ne_nil
  rw [← hdata]
  intro he
  exact hne (String.ext he)

/-! ## Evaluation rules for one iteration of the first-pass loop -/

theorem classify_text_raw_ne_nil {raw p : String} (h : classifyLine raw = LineKind.text p) :
    raw.data ≠ [] := by
  intro he
  have hraw : raw = "" := String.ext (by rw [he])
  rw [hraw] at h
  have h0 : classifyLine "" = LineKind.skip := by decide
  rw [h0] at h
  cases h

theorem segStep_skip {raw : String} (θ : Rat) (st : SegState)
    (h : classifyLine raw = LineKind.skip) : segStep θ st raw = st := by
  rw [segStep, h]

theorem segStep_text_new {raw p : String} (θ : Rat) (st : SegState)
    (h : classifyLine raw = LineKind.text p) (hne : p ≠ "") (hmem : p ∉ st.seen_lines) :
    segStep θ st raw =
      { st with
        current_block_text := st.current_block_text ++ [p]
        seen_lines := st.seen_lines ++ [p] } := by
  simp only [segStep, h]
  rw [if_pos ⟨hne, hmem⟩]

theorem segStep_text_dup {raw p : String} (θ : Rat) (st : SegState)
    (h : classifyLine raw = LineKind.text p) (hmem : p ∈ st.seen_lines) :
    segStep θ st raw = st := by
  simp only [segStep, h]
  rw [if_neg]
  intro hand
  exact hand.2 hmem

theorem segStep_cue_first {raw : String} (θ : Rat) (st : SegState) (s e : Option Rat)
    (h : classifyLine raw = LineKind.cue s e) (hce : st.current_end_time = none) :
    segStep θ st raw = { st with current_end_time := e } := by
  simp only [segStep, h, hce]

theorem segStep_cue_break {raw : String} (θ : Rat) (st : SegState) (s : Rat)
    (e : Option Rat) (ce : Rat)
    (h : classifyLine raw = LineKind.cue (some s) e) (hce : st.current_end_time = some ce)
    (hgap : θ ≤ s - ce) (hbl : st.current_block_text ≠ []) :
    segStep θ st raw =
      ⟨st.blocks ++ [⟨st.current_block_text, true⟩], e, [], []⟩ := by
  simp only [segStep, h, hce]
  rw [if_pos ⟨hgap, hbl⟩]

theorem segStep_cue_nobreak {raw : String} (θ : Rat) (st : SegState) (s : Rat)
    (e : Option Rat) (ce : Rat)
    (h : classifyLine raw = LineKind.cue (some s) e) (hce : st.current_end_time = some ce)
    (hng : ¬ (θ ≤ s - ce ∧ st.current_block_text ≠ [])) :
    segStep θ st raw = { st with current_end_time := e } := by
  simp only [segStep, h, hce]
  rw [if_neg hng]

theorem paragraphsOf_cons_ne {b : Block} {rest : List Block} (hb : b.text ≠ [])
    (hp : blockParagraph b ≠ "") :
    paragraphsOf (b :: rest) = blockParagraph b :: paragraphsOf rest := by
  rw [paragraphsOf, List.filterMap_cons]
  have hfb : (if b.text = [] then none
      else
        let par := blockParagraph b
        if par ≠ "" then some par else none) = some (blockParagraph b) := by
    rw [if_neg hb]
    simp only []
    rw [if_pos hp]
  rw [hfb, paragraphsOf]

theorem paragraphsOf_nil : paragraphsOf [] = [] := rfl

theorem blockParagraph_no_newline (b : Block) :
    ¬ '\n' ∈ (blockParagraph b).data := by
  intro hmem
  rw [show (blockParagraph b).data =
    pyStripList (collapseWsList (pyJoin " " b.text).data) from rfl] at hmem
  exact lf_not_mem_collapseWsList _ (mem_of_mem_pyStripList hmem)

/-! ## Splitting a newline-joined list of lines -/

theorem mem_pyJoin_nl (l : List String) (c : Char) :
    c ∈ (pyJoin "\n" l).data → c = '\n' ∨ ∃ s ∈ l, c ∈ s.data := by
  induction l with
  | nil =>
    intro hc
    cases hc
  | cons s rest ih =>
    cases rest with
    | nil =>
      intro hc
      exact Or.inr ⟨s, by simp, hc⟩
    | cons s2 rest2 =>
      intro hc
      rw [show pyJoin "\n" (s :: s2 :: rest2) =
        s ++ "\n" ++ pyJoin "\n" (s2 :: rest2) from rfl] at hc
      simp only [String.data_append, List.mem_append] at hc
      rcases hc with (hc | hc) | hc
      · exact Or.inr ⟨s, by simp, hc⟩
      · left
        simpa using hc
      · rcases ih hc with h | ⟨s', hs', hc'⟩
        · exact Or.inl h
        · exact Or.inr ⟨s', by simp [hs'], hc'⟩

theorem splitlinesAux_join :
    ∀ (l : List String), l ≠ [] → (∀ s ∈ l, boundaryFree s) → (∀ s ∈ l, s.data ≠ []) →
      splitlinesAux [] (pyJoin "\n" l).data = l.map String.data
  | [], hl, _, _ => absurd rfl hl
  | [s], _, hb, hne => by
    rw [show pyJoin "\n" [s] = s from rfl]
    rw [splitlinesAux_no_boundary s.data [] (hb s (by simp)) (by simpa using hne s (by simp))]
    rfl
  | s :: s2 :: rest, _, hb, hne => by
    rw [show pyJoin "\n" (s :: s2 :: rest) = s ++ "\n" ++ pyJoin "\n" (s2 :: rest) from rfl]
    rw [show (s ++ "\n" ++ pyJoin "\n" (s2 :: rest)).data =
      s.data ++ '\n' :: (pyJoin "\n" (s2 :: rest)).data from by
        simp [String.data_append]]
    rw [splitlinesAux_append_nl s.data [] _ (hb s (by simp))]
    rw [splitlinesAux_join (s2 :: rest) (by simp)
      (fun x hx => hb x (by simp [hx])) (fun x hx => hne x (by simp [hx]))]
    rfl

theorem pySplitlines_join (l : List String) (hl : l ≠ [])
    (hb : ∀ s ∈ l, boundaryFree s) (hne : ∀ s ∈ l, s.data ≠ []) :
    pySplitlines (pyJoin "\n" l) = l := by
  have hnocr : ∀ c ∈ (pyJoin "\n" l).data, c ≠ '\r' := by
    intro c hc
    rcases mem_pyJoin_nl l c hc with rfl | ⟨s, hs, hcs⟩
    · decide
    · exact ne_cr_of_boundaryFree (hb s hs) c hcs
  rw [pySplitlines, pyReplaceList_no_cr _ hnocr, splitlinesAux_join l hl hb hne]
  rw [List.map_map]
  have : (String.mk ∘ String.data) = id := by
    funext s
    rfl
  rw [this, List.map_id]

theorem cueLine_data_ne_nil (a b : TsParts) : (cueLine a b).data ≠ [] := by
  rw [cueLine_data]
  simp

/-- C1: paragraph boundary law. For a two-cue document (cue line, text line,
cue line, text line) in which both text lines survive sanitization, if the
second cue's start time minus the first cue's end time is at least the pause
threshold then the output contains a double newline between the text
contributed by the first cue and the text contributed by the second; if the
gap is below the threshold, no paragraph break is inserted at all (the output
contains no newline). -/
theorem paragraph_boundary_spec (θ : Rat) (a b c d : TsParts) (t1 t2 p1 p2 : String)
    (hb1 : boundaryFree t1) (hb2 : boundaryFree t2)
    (hc1 : classifyLine t1 = LineKind.text p1)
    (hc2 : classifyLine t2 = LineKind.text p2) :
    (θ ≤ tsSeconds c - tsSeconds b →
      ∃ l r : String,
        clean_vtt_content (vttDoc2 (cueLine a b) t1 (cueLine c d) t2) θ =
          l ++ "\n\n" ++ r) ∧
    (tsSeconds c - tsSeconds b < θ →
      ∀ ch ∈ (clean_vtt_content (vttDoc2 (cueLine a b) t1 (cueLine c d) t2) θ).data,
        ch ≠ '\n') := by
  have ht2ne : t2.data ≠ [] := classify_text_raw_ne_nil hc2
  have hp1ne : p1 ≠ "" := classify_text_ne_empty hc1
  have hp2ne : p2 ≠ "" := classify_text_ne_empty hc2
  have hsl := pySplitlines_vttDoc2 (cueLine a b) t1 (cueLine c d) t2
    (boundaryFree_cueLine a b) hb1 (boundaryFree_cueLine c d) hb2 ht2ne
  have hdoc : vttDoc2 (cueLine a b) t1 (cueLine c d) t2 ≠ "" := by
    intro he
    rw [he] at hsl
    have h0 : pySplitlines "" = [] := rfl
    rw [h0] at hsl
    cases hsl
  have hnws1 : ∃ ch ∈ p1.data, pyWs ch = false :=
    surviving_line_nonws (classify_text_inv hc1)
  have h1 : segStep θ ⟨[], none, [], []⟩ (cueLine a b) =
      ⟨[], some (tsSeconds b), [], []⟩ :=
    segStep_cue_first θ _ (some (tsSeconds a)) (some (tsSeconds b))
      (classify_cueLine a b) rfl
  have h2 : segStep θ ⟨[], some (tsSeconds b), [], []⟩ t1 =
      ⟨[], some (tsSeconds b), [p1], [p1]⟩ := by
    rw [segStep_text_new θ _ hc1 hp1ne (by simp)]
    rfl
  constructor
  · -- the gap reaches the threshold: a paragraph break is produced
    intro hgap
    have h3 : segStep θ ⟨[], some (tsSeconds b), [p1], [p1]⟩ (cueLine c d) =
        ⟨[⟨[p1], true⟩], some (tsSeconds d), [], []⟩ := by
      rw [segStep_cue_break θ _ (tsSeconds c) (some (tsSeconds d)) (tsSeconds b)
        (classify_cueLine c d) rfl hgap (by simp)]
      rfl
    have h4 : segStep θ ⟨[⟨[p1], true⟩], some (tsSeconds d), [], []⟩ t2 =
        ⟨[⟨[p1], true⟩], some (tsSeconds d), [p2], [p2]⟩ := by
      rw [segStep_text_new θ _ hc2 hp2ne (by simp)]
      rfl
    have hrun : segRun θ [cueLine a b, t1, cueLine c d, t2] =
        ⟨[⟨[p1], true⟩], some (tsSeconds d), [p2], [p2]⟩ := by
      rw [segRun, List.foldl_cons, h1, List.foldl_cons, h2, List.foldl_cons, h3,
        List.foldl_cons, h4, List.foldl_nil]
    have hq1 : blockParagraph ⟨[p1], true⟩ ≠ "" := by
      apply blockParagraph_ne_empty
      rw [show pyJoin " " [p1] = p1 from rfl]
      exact hnws1
    have hq2 : blockParagraph ⟨[p2], false⟩ ≠ "" := by
      apply blockParagraph_ne_empty
      rw [show pyJoin " " [p2] = p2 from rfl]
      exact surviving_line_nonws (classify_text_inv hc2)
    have hout : clean_vtt_content (vttDoc2 (cueLine a b) t1 (cueLine c d) t2) θ =
        capitalize_sentences
          (blockParagraph ⟨[p1], true⟩ ++ "\n\n" ++ blockParagraph ⟨[p2], false⟩) := by
      simp only [clean_vtt_content]
      rw [if_neg hdoc, hsl, hrun]
      rw [show finalBlocks ⟨[⟨[p1], true⟩], some (tsSeconds d), [p2], [p2]⟩ =
        [⟨[p1], true⟩, ⟨[p2], false⟩] from by rw [finalBlocks, if_pos (by simp)]; rfl]
      have hpars : paragraphsOf [(⟨[p1], true⟩ : Block), ⟨[p2], false⟩] =
          [blockParagraph ⟨[p1], true⟩, blockParagraph ⟨[p2], false⟩] := by
        rw [paragraphsOf_cons_ne (show (Block.mk [p1] true).text ≠ [] by simp) hq1]
        rw [paragraphsOf_cons_ne (show (Block.mk [p2] false).text ≠ [] by simp) hq2]
        rw [paragraphsOf_nil]
      rw [hpars]
      rw [show pyJoin "\n\n" [blockParagraph ⟨[p1], true⟩, blockParagraph ⟨[p2], false⟩] =
        blockParagraph ⟨[p1], true⟩ ++ "\n\n" ++ blockParagraph ⟨[p2], false⟩ from rfl]
    rw [hout]
    obtain ⟨l, r, hlr, -⟩ := capitalize_double_newline
      (blockParagraph ⟨[p1], true⟩ ++ "\n\n" ++ blockParagraph ⟨[p2], false⟩)
      (blockParagraph ⟨[p1], true⟩) (blockParagraph ⟨[p2], false⟩)
      (by simp [String.data_append])
    exact ⟨l, r, hlr⟩
  · -- the gap is below the threshold: no break at all
    intro hgap
    have hng : ¬ (θ ≤ tsSeconds c - tsSeconds b ∧
        (⟨[], some (tsSeconds b), [p1], [p1]⟩ : SegState).current_block_text ≠ []) := by
      intro hand
      exact absurd hand.1 (not_le.mpr hgap)
    have h3 : segStep θ ⟨[], some (tsSeconds b), [p1], [p1]⟩ (cueLine c d) =
        ⟨[], some (tsSeconds d), [p1], [p1]⟩ := by
      rw [segStep_cue_nobreak θ _ (tsSeconds c) (some (tsSeconds d)) (tsSeconds b)
        (classify_cueLine c d) rfl hng]
    by_cases hdup : p2 ∈ ([p1] : List String)
    · have h4 : segStep θ ⟨[], some (tsSeconds d), [p1], [p1]⟩ t2 =
          ⟨[], some (tsSeconds d), [p1], [p1]⟩ :=
        segStep_text_dup θ _ hc2 hdup
      have hrun : segRun θ [cueLine a b, t1, cueLine c d, t2] =
          ⟨[], some (tsSeconds d), [p1], [p1]⟩ := by
        rw [segRun, List.foldl_cons, h1, List.foldl_cons, h2, List.foldl_cons, h3,
          List.foldl_cons, h4, List.foldl_nil]
      have hq1 : blockParagraph ⟨[p1], false⟩ ≠ "" := by
        apply blockParagraph_ne_empty
        rw [show pyJoin " " [p1] = p1 from rfl]
        exact hnws1
      have hout : clean_vtt_content (vttDoc2 (cueLine a b) t1 (cueLine c d) t2) θ =
          capitalize_sentences (blockParagraph ⟨[p1], false⟩) := by
        simp only [clean_vtt_content]
        rw [if_neg hdoc, hsl, hrun]
        rw [show finalBlocks ⟨[], some (tsSeconds d), [p1], [p1]⟩ =
          [⟨[p1], false⟩] from by rw [finalBlocks, if_pos (by simp)]; rfl]
        rw [paragraphsOf_cons_ne (by simp) hq1, paragraphsOf_nil]
        rw [show pyJoin "\n\n" [blockParagraph ⟨[p1], false⟩] =
          blockParagraph ⟨[p1], false⟩ from rfl]
      rw [hout]
      intro ch hch he
      rw [he] at hch
      exact capitalize_no_newline _ (blockParagraph_no_newline _) hch
    · have h4 : segStep θ ⟨[], some (tsSeconds d), [p1], [p1]⟩ t2 =
          ⟨[], some (tsSeconds d), [p1, p2], [p1, p2]⟩ := by
        rw [segStep_text_new θ _ hc2 hp2ne hdup]
        rfl
      have hrun : segRun θ [cueLine a b, t1, cueLine c d, t2] =
          ⟨[], some (tsSeconds d), [p1, p2], [p1, p2]⟩ := by
        rw [segRun, List.foldl_cons, h1, List.foldl_cons, h2, List.foldl_cons, h3,
          List.foldl_cons, h4, List.foldl_nil]
      have hq12 : blockParagraph ⟨[p1, p2], false⟩ ≠ "" := by
        apply blockParagraph_ne_empty
        rw [show pyJoin " " [p1, p2] = p1 ++ " " ++ p2 from rfl]
        obtain ⟨ch, hch, hws⟩ := hnws1
        exact ⟨ch, by simp [String.data_append, hch], hws⟩
      have hout : clean_vtt_content (vttDoc2 (cueLine a b) t1 (cueLine c d) t2) θ =
          capitalize_sentences (blockParagraph ⟨[p1, p2], false⟩) := by
        simp only [clean_vtt_content]
        rw [if_neg hdoc, hsl, hrun]
        rw [show finalBlocks ⟨[], some (tsSeconds d), [p1, p2], [p1, p2]⟩ =
          [⟨[p1, p2], false⟩] from by rw [finalBlocks, if_pos (by simp)]; rfl]
        rw [paragraphsOf_cons_ne (by simp) hq12, paragraphsOf_nil]
        rw [show pyJoin "\n\n" [blockParagraph ⟨[p1, p2], false⟩] =
          blockParagraph ⟨[p1, p2], false⟩ from rfl]
      rw [hout]
      intro ch hch he
      rw [he] at hch
      exact capitalize_no_newline _ (blockParagraph_no_newline _) hch

theorem paragraph_boundary_spec_witness :
    ∃ l r : String,
      clean_vtt_content
        (vttDoc2 (cueLine ⟨0, 0, 0, 0⟩ ⟨0, 0, 2, 0⟩) "hello"
          (cueLine ⟨0, 0, 10, 0⟩ ⟨0, 0, 12, 0⟩) "world") (5 / 2) =
        l ++ "\n\n" ++ r :=
  (paragraph_boundary_spec (5 / 2) ⟨0, 0, 0, 0⟩ ⟨0, 0, 2, 0⟩ ⟨0, 0, 10, 0⟩ ⟨0, 0, 12, 0⟩
    "hello" "world" "hello" "world"
    (by exact (by decide : ∀ ch ∈ ("hello" : String).data, lineBoundary ch = false))
    (by exact (by decide : ∀ ch ∈ ("world" : String).data, lineBoundary ch = false))
    (by decide) (by decide)).1
    (by norm_num [tsSeconds, digit2, digit3])

/-! ## Per-paragraph deduplication -/

/-- The deduplication invariant of the first-pass loop: finished blocks hold
no duplicate lines, the open block holds no duplicate lines, and every line of
the open block has been recorded in the seen set. -/
def SegInv (st : SegState) : Prop :=
  (∀ b ∈ st.blocks, b.text.Nodup) ∧ st.current_block_text.Nodup ∧
    ∀ p ∈ st.current_block_text, p ∈ st.seen_lines

theorem segStep_SegInv (θ : Rat) (raw : String) (st : SegState) (h : SegInv st) :
    SegInv (segStep θ st raw) := by
  obtain ⟨hb, hnd, hsub⟩ := h
  rw [segStep]
  split
  · exact ⟨hb, hnd, hsub⟩
  · split
    · split
      · refine ⟨?_, List.nodup_nil, ?_⟩
        · intro b hmem
          rcases List.mem_append.mp hmem with hmem | hmem
          · exact hb b hmem
          · rcases List.mem_cons.mp hmem with rfl | hmem
            · exact hnd
            · cases hmem
        · intro p hp
          cases hp
      · exact ⟨hb, hnd, hsub⟩
    · exact ⟨hb, hnd, hsub⟩
  · split
    · rename_i hcond
      refine ⟨hb, ?_, ?_⟩
      · rw [List.nodup_append]
        refine ⟨hnd, List.nodup_singleton _, ?_⟩
        intro q hq hq1
        rcases List.mem_cons.mp hq1 with rfl | hq1
        · exact hcond.2 (hsub q hq)
        · cases hq1
      · intro q hq
        rcases List.mem_append.mp hq with hq | hq
        · exact List.mem_append_left _ (hsub q hq)
        · exact List.mem_append_right _ hq
    · exact ⟨hb, hnd, hsub⟩

theorem foldl_SegInv (θ : Rat) :
    ∀ (l : List String) (st : SegState), SegInv st → SegInv (l.foldl (segStep θ) st) := by
  intro l
  induction l with
  | nil =>
    intro st h
    exact h
  | cons raw rest ih =>
    intro st h
    rw [List.foldl_cons]
    exact ih _ (segStep_SegInv θ raw st h)

theorem segRun_SegInv (θ : Rat) (lines : List String) : SegInv (segRun θ lines) := by
  rw [segRun]
  exact foldl_SegInv θ lines _ ⟨by simp, List.nodup_nil, by simp⟩

/-- C2: per-paragraph deduplication. First, every block produced by the first
pass of `clean_vtt_content` holds pairwise-distinct sanitized lines (the dedup
scope is per paragraph). Second, the dedup law on a three-cue document whose
three text lines are the same surviving line `t`: the duplicate inside the
first paragraph (gap below threshold) is kept once, and after the paragraph
break (gap at least threshold) the same line is kept again, because the seen
set is reset at the boundary. -/
theorem paragraph_dedup_spec :
    (∀ (θ : Rat) (lines : List String) (bl : Block),
      bl ∈ finalBlocks (segRun θ lines) → bl.text.Nodup) ∧
    (∀ (θ : Rat) (a b c d e f : TsParts) (t p : String),
      boundaryFree t → classifyLine t = LineKind.text p →
      ¬ θ ≤ tsSeconds c - tsSeconds b → θ ≤ tsSeconds e - tsSeconds d →
      clean_vtt_content
          (pyJoin "\n" [cueLine a b, t, cueLine c d, t, cueLine e f, t]) θ =
        capitalize_sentences
          (blockParagraph ⟨[p], true⟩ ++ "\n\n" ++ blockParagraph ⟨[p], false⟩)) := by
  constructor
  · intro θ lines bl hmem
    obtain ⟨hb, hnd, -⟩ := segRun_SegInv θ lines
    rw [finalBlocks] at hmem
    rcases List.mem_append.mp hmem with hmem | hmem
    · exact hb bl hmem
    · split at hmem
      · rcases List.mem_cons.mp hmem with rfl | hmem
        · exact hnd
        · cases hmem
      · cases hmem
  · intro θ a b c d e f t p hbf hct hng hgap
    have hpne : p ≠ "" := classify_text_ne_empty hct
    have hnws : ∃ ch ∈ p.data, pyWs ch = false :=
      surviving_line_nonws (classify_text_inv hct)
    have hsl : pySplitlines (pyJoin "\n" [cueLine a b, t, cueLine c d, t, cueLine e f, t]) =
        [cueLine a b, t, cueLine c d, t, cueLine e f, t] := by
      apply pySplitlines_join _ (by simp)
      · intro s hs
        rcases List.mem_cons.mp hs with rfl | hs
        · exact boundaryFree_cueLine a b
        · rcases List.mem_cons.mp hs with rfl | hs
          · exact hbf
          · rcases List.mem_cons.mp hs with rfl | hs
            · exact boundaryFree_cueLine c d
            · rcases List.mem_cons.mp hs with rfl | hs
              · exact hbf
              · rcases List.mem_cons.mp hs with rfl | hs
                · exact boundaryFree_cueLine e f
                · rcases List.mem_cons.mp hs with rfl | hs
                  · exact hbf
                  · cases hs
      · intro s hs
        rcases List.mem_cons.mp hs with rfl | hs
        · exact cueLine_data_ne_nil a b
        · rcases List.mem_cons.mp hs with rfl | hs
          · exact classify_text_raw_ne_nil hct
          · rcases List.mem_cons.mp hs with rfl | hs
            · exact cueLine_data_ne_nil c d
            · rcases List.mem_cons.mp hs with rfl | hs
              · exact classify_text_raw_ne_nil hct
              · rcases List.mem_cons.mp hs with rfl | hs
                · exact cueLine_data_ne_nil e f
                · rcases List.mem_cons.mp hs with rfl | hs
                  · exact classify_text_raw_ne_nil hct
                  · cases hs
    have hdoc : pyJoin "\n" [cueLine a b, t, cueLine c d, t, cueLine e f, t] ≠ "" := by
      intro he
      rw [he] at hsl
      have h0 : pySplitlines "" = [] := rfl
      rw [h0] at hsl
      cases hsl
    have g1 : segStep θ ⟨[], none, [], []⟩ (cueLine a b) =
        ⟨[], some (tsSeconds b), [], []⟩ :=
      segStep_cue_first θ _ (some (tsSeconds a)) (some (tsSeconds b))
        (classify_cueLine a b) rfl
    have g2 : segStep θ ⟨[], some (tsSeconds b), [], []⟩ t =
        ⟨[], some (tsSeconds b), [p], [p]⟩ := by
      rw [segStep_text_new θ _ hct hpne (by simp)]
      rfl
    have g3 : segStep θ ⟨[], some (tsSeconds b), [p], [p]⟩ (cueLine c d) =
        ⟨[], some (tsSeconds d), [p], [p]⟩ := by
      rw [segStep_cue_nobreak θ _ (tsSeconds c) (some (tsSeconds d)) (tsSeconds b)
        (classify_cueLine c d) rfl (fun hand => absurd hand.1 hng)]
    have g4 : segStep θ ⟨[], some (tsSeconds d), [p], [p]⟩ t =
        ⟨[], some (tsSeconds d), [p], [p]⟩ :=
      segStep_text_dup θ _ hct (by simp)
    have g5 : segStep θ ⟨[], some (tsSeconds d), [p], [p]⟩ (cueLine e f) =
        ⟨[⟨[p], true⟩], some (tsSeconds f), [], []⟩ := by
      rw [segStep_cue_break θ _ (tsSeconds e) (some (tsSeconds f)) (tsSeconds d)
        (classify_cueLine e f) rfl hgap (by simp)]
      rfl
    have g6 : segStep θ ⟨[⟨[p], true⟩], some (tsSeconds f), [], []⟩ t =
        ⟨[⟨[p], true⟩], some (tsSeconds f), [p], [p]⟩ := by
      rw [segStep_text_new θ _ hct hpne (by simp)]
      rfl
    have hrun : segRun θ [cueLine a b, t, cueLine c d, t, cueLine e f, t] =
        ⟨[⟨[p], true⟩], some (tsSeconds f), [p], [p]⟩ := by
      rw [segRun, List.foldl_cons, g1, List.foldl_cons, g2, List.foldl_cons, g3,
        List.foldl_cons, g4, List.foldl_cons, g5, List.foldl_cons, g6, List.foldl_nil]
    have hq1 : blockParagraph ⟨[p], true⟩ ≠ "" := by
      apply blockParagraph_ne_empty
      rw [show pyJoin " " [p] = p from rfl]
      exact hnws
    have hq2 : blockParagraph ⟨[p], false⟩ ≠ "" := by
      apply blockParagraph_ne_empty
      rw [show pyJoin " " [p] = p from rfl]
      exact hnws
    simp only [clean_vtt_content]
    rw [if_neg hdoc, hsl, hrun]
    rw [show finalBlocks ⟨[⟨[p], true⟩], some (tsSeconds f), [p], [p]⟩ =
      [⟨[p], true⟩, ⟨[p], false⟩] from by rw [finalBlocks, if_pos (by simp)]; rfl]
    have hpars : paragraphsOf [(⟨[p], true⟩ : Block), ⟨[p], false⟩] =
        [blockParagraph ⟨[p], true⟩, blockParagraph ⟨[p], false⟩] := by
      rw [paragraphsOf_cons_ne (show (Block.mk [p] true).text ≠ [] by simp) hq1]
      rw [paragraphsOf_cons_ne (show (Block.mk [p] false).text ≠ [] by simp) hq2]
      rw [paragraphsOf_nil]
    rw [hpars]
    rw [show pyJoin "\n\n" [blockParagraph ⟨[p], true⟩, blockParagraph ⟨[p], false⟩] =
      blockParagraph ⟨[p], true⟩ ++ "\n\n" ++ blockParagraph ⟨[p], false⟩ from rfl]

/-! ## The marker filter -/

theorem pyLowerList_idem (l : List Char) : pyLowerList (pyLowerList l) = pyLowerList l := by
  simp only [pyLowerList]
  rw [List.map_map]
  apply List.map_congr_left
  intro c _
  exact toLower_idem c

theorem removeMarkers_eq_lower (plain : String) :
    removeMarkers plain = removeMarkers (pyLower plain) := by
  rw [removeMarkers, removeMarkers,
    show USELESS_MARKERS = "[music]" :: USELESS_MARKERS.tail from rfl,
    List.foldl_cons, List.foldl_cons]
  congr 2
  rw [show pyLowerList (pyLower plain).data = pyLowerList (pyLowerList plain.data) from rfl,
    pyLowerList_idem]

theorem removeMarkers_of_marker {plain m : String} (hm : pyLower plain = m)
    (hmem : m ∈ USELESS_MARKERS) : removeMarkers plain = "" := by
  rw [removeMarkers_eq_lower, hm]
  fin_cases hmem <;> decide

theorem processTextLine_none_iff (line : String) :
    processTextLine line = none ↔ removeMarkers (sanitizePlainText line) = "" := by
  simp only [processTextLine]
  constructor
  · intro h
    split at h
    · rename_i hmem
      exact removeMarkers_of_marker rfl hmem
    · split at h
      · assumption
      · cases h
  · intro h
    rw [if_pos h]
    split <;> rfl

/-- C5: marker filtering. A text line whose sanitized form lowercases to one
of the fixed useless markers is discarded; a sanitized line is discarded
exactly when iterated marker removal leaves nothing; a lone `[Music]` line (in
any case) contributes nothing to the loop state, while lines with genuine
residual text such as `[Music] wow` or `this is wow` survive unchanged. -/
theorem marker_filtering_spec :
    (∀ line : String, pyLower (sanitizePlainText line) ∈ USELESS_MARKERS →
      processTextLine line = none) ∧
    (∀ line : String, processTextLine line = none ↔
      removeMarkers (sanitizePlainText line) = "") ∧
    (∀ (θ : Rat) (st : SegState), segStep θ st "[Music]" = st) ∧
    processTextLine "[Music]" = none ∧
    processTextLine "[mUsIc]" = none ∧
    processTextLine "[Music] wow" = some "[Music] wow" ∧
    processTextLine "this is wow" = some "this is wow" := by
  refine ⟨?_, processTextLine_none_iff, ?_, by decide, by decide, by decide, by decide⟩
  · intro line hmem
    simp only [processTextLine]
    rw [if_pos hmem]
  · intro θ st
    exact segStep_skip θ st (by decide)

/-! ## A declarative description of the capitalize-next flag -/

/-- Offset `j` of `l` holds sentence-ending punctuation that is not the very
last character. -/
def punctAt (l : List Char) (j : Nat) : Prop :=
  (∃ c, l.get? j = some c ∧ sentencePunct c = true) ∧ j + 1 < l.length

/-- No alphabetic character strictly between offsets `j` and `k`. -/
def noAlphaIn (l : List Char) (j k : Nat) : Prop :=
  ∀ i, j < i → i < k → ∀ c, l.get? i = some c → c.isAlpha = false

/-- No alphabetic character before offset `k`. -/
def noAlphaLt (l : List Char) (k : Nat) : Prop :=
  ∀ i, i < k → ∀ c, l.get? i = some c → c.isAlpha = false

/-- When the character at offset `k` should be uppercased: some earlier
non-final `.`/`?`/`!` has no alphabetic character after it and before `k`, or
the loop was entered with the flag set and nothing alphabetic precedes `k`. -/
def capFlagSpec (flag : Bool) (l : List Char) (k : Nat) : Prop :=
  (∃ j, j < k ∧ punctAt l j ∧ noAlphaIn l j k) ∨ (flag = true ∧ noAlphaLt l k)

theorem punct_not_alpha {c : Char} (h : sentencePunct c = true) : c.isAlpha = false := by
  rw [sentencePunct_iff] at h
  rw [← Bool.not_eq_true, isAlpha_iff]
  omega

theorem punctAt_cons_zero (c : Char) (cs : List Char) :
    punctAt (c :: cs) 0 ↔ sentencePunct c = true ∧ cs ≠ [] := by
  rw [punctAt]
  constructor
  · rintro ⟨⟨ch, hch, hp⟩, hlen⟩
    rw [List.get?_cons_zero] at hch
    injection hch with hch
    subst hch
    refine ⟨hp, ?_⟩
    rw [← List.length_pos_iff_ne_nil]
    rw [List.length_cons] at hlen
    omega
  · rintro ⟨hp, hne⟩
    refine ⟨⟨c, List.get?_cons_zero, hp⟩, ?_⟩
    have := List.length_pos_iff_ne_nil.mpr hne
    rw [List.length_cons]
    omega

theorem punctAt_cons_succ (c : Char) (cs : List Char) (j : Nat) :
    punctAt (c :: cs) (j + 1) ↔ punctAt cs j := by
  rw [punctAt, punctAt, List.get?_cons_succ, List.length_cons]
  constructor
  · rintro ⟨he, hlen⟩
    exact ⟨he, by omega⟩
  · rintro ⟨he, hlen⟩
    exact ⟨he, by omega⟩

theorem noAlphaIn_cons_succ (c : Char) (cs : List Char) (j n : Nat) :
    noAlphaIn (c :: cs) (j + 1) (n + 1) ↔ noAlphaIn cs j n := by
  constructor
  · intro h i hji hin ch hch
    exact h (i + 1) (by omega) (by omega) ch (by rw [List.get?_cons_succ]; exact hch)
  · intro h i hji hin ch hch
    cases i with
    | zero => omega
    | succ i' =>
      rw [List.get?_cons_succ] at hch
      exact h i' (by omega) (by omega) ch hch

theorem noAlphaIn_cons_zero (c : Char) (cs : List Char) (n : Nat) :
    noAlphaIn (c :: cs) 0 (n + 1) ↔ noAlphaLt cs n := by
  constructor
  · intro h i hin ch hch
    exact h (i + 1) (by omega) (by omega) ch (by rw [List.get?_cons_succ]; exact hch)
  · intro h i hpos hin ch hch
    cases i with
    | zero => omega
    | succ i' =>
      rw [List.get?_cons_succ] at hch
      exact h i' (by omega) ch hch

theorem noAlphaLt_cons (c : Char) (cs : List Char) (n : Nat) :
    noAlphaLt (c :: cs) (n + 1) ↔ c.isAlpha = false ∧ noAlphaLt cs n := by
  constructor
  · intro h
    refine ⟨h 0 (by omega) c List.get?_cons_zero, ?_⟩
    intro i hin ch hch
    exact h (i + 1) (by omega) ch (by rw [List.get?_cons_succ]; exact hch)
  · rintro ⟨hc, h⟩ i hin ch hch
    cases i with
    | zero =>
      rw [List.get?_cons_zero] at hch
      injection hch with hch
      subst hch
      exact hc
    | succ i' =>
      rw [List.get?_cons_succ] at hch
      exact h i' (by omega) ch hch

theorem capFlagSpec_zero (flag : Bool) (l : List Char) :
    capFlagSpec flag l 0 ↔ flag = true := by
  rw [capFlagSpec]
  constructor
  · rintro (⟨j, hj, -, -⟩ | ⟨hf, -⟩)
    · omega
    · exact hf
  · intro hf
    refine Or.inr ⟨hf, ?_⟩
    intro i hi
    omega

theorem capFlagSpec_nil (flag : Bool) (k : Nat) :
    capFlagSpec flag [] k ↔ flag = true := by
  rw [capFlagSpec]
  constructor
  · rintro (⟨j, -, ⟨⟨ch, hch, -⟩, -⟩, -⟩ | ⟨hf, -⟩)
    · cases j <;> cases hch
    · exact hf
  · intro hf
    refine Or.inr ⟨hf, ?_⟩
    intro i hi ch hch
    cases i <;> cases hch

theorem capFlagSpec_cons (flag : Bool) (c : Char) (cs : List Char) (n : Nat) :
    capFlagSpec (updFlag flag c cs.isEmpty) cs n ↔ capFlagSpec flag (c :: cs) (n + 1) := by
  have hshift : (∃ j, j < n ∧ punctAt cs j ∧ noAlphaIn cs j n) ↔
      ∃ j, 0 < j ∧ j < n + 1 ∧ punctAt (c :: cs) j ∧ noAlphaIn (c :: cs) j (n + 1) := by
    constructor
    · rintro ⟨j, hj, hp, hna⟩
      exact ⟨j + 1, by omega, by omega, (punctAt_cons_succ c cs j).mpr hp,
        (noAlphaIn_cons_succ c cs j n).mpr hna⟩
    · rintro ⟨j, hpos, hj, hp, hna⟩
      cases j with
      | zero => omega
      | succ j' =>
        exact ⟨j', by omega, (punctAt_cons_succ c cs j').mp hp,
          (noAlphaIn_cons_succ c cs j' n).mp hna⟩
  by_cases hpc : sentencePunct c = true ∧ cs ≠ []
  · have hflag : updFlag flag c cs.isEmpty = true := by
      rw [updFlag, if_pos]
      rw [Bool.and_eq_true, hpc.1, Bool.not_eq_true']
      refine ⟨rfl, ?_⟩
      rw [← Bool.not_eq_true, List.isEmpty_iff]
      exact hpc.2
    rw [hflag, capFlagSpec, capFlagSpec]
    constructor
    · rintro (hA | ⟨-, hna⟩)
      · rcases hshift.mp hA with ⟨j, -, hj, hp, hna⟩
        exact Or.inl ⟨j, hj, hp, hna⟩
      · exact Or.inl ⟨0, by omega, (punctAt_cons_zero c cs).mpr hpc,
          (noAlphaIn_cons_zero c cs n).mpr hna⟩
    · rintro (⟨j, hj, hp, hna⟩ | ⟨-, hna⟩)
      · cases j with
        | zero =>
          exact Or.inr ⟨rfl, (noAlphaIn_cons_zero c cs n).mp hna⟩
        | succ j' =>
          exact Or.inl (hshift.mpr ⟨j' + 1, by omega, hj, hp, hna⟩)
      · exact Or.inr ⟨rfl, ((noAlphaLt_cons c cs n).mp hna).2⟩
  · have hpz : ¬ punctAt (c :: cs) 0 := fun h => hpc ((punctAt_cons_zero c cs).mp h)
    by_cases halpha : c.isAlpha = true
    · have hflag : updFlag flag c cs.isEmpty = false := by
        rw [updFlag, if_neg]
        · cases flag with
          | false => rw [show (false && c.isAlpha) = false from rfl, if_neg (by simp)]
          | true =>
            rw [show (true && c.isAlpha) = c.isAlpha from by simp, if_pos halpha]
        · rw [Bool.and_eq_true, Bool.not_eq_true']
          rintro ⟨hp, he⟩
          refine hpc ⟨hp, fun hnil => ?_⟩
          rw [hnil] at he
          simp at he
      rw [hflag, capFlagSpec, capFlagSpec]
      constructor
      · rintro (hA | ⟨hf, -⟩)
        · rcases hshift.mp hA with ⟨j, -, hj, hp, hna⟩
          exact Or.inl ⟨j, hj, hp, hna⟩
        · cases hf
      · rintro (⟨j, hj, hp, hna⟩ | ⟨-, hna⟩)
        · cases j with
          | zero => exact absurd hp hpz
          | succ j' =>
            exact Or.inl (hshift.mpr ⟨j' + 1, by omega, hj, hp, hna⟩)
        · have := ((noAlphaLt_cons c cs n).mp hna).1
          rw [halpha] at this
          cases this
    · have hflag : updFlag flag c cs.isEmpty = flag := by
        rw [updFlag, if_neg]
        · rw [show (flag && c.isAlpha) = false from by
            rw [Bool.not_eq_true] at halpha
            rw [halpha, Bool.and_false]]
          rw [if_neg (by simp)]
        · rw [Bool.and_eq_true, Bool.not_eq_true']
          rintro ⟨hp, he⟩
          refine hpc ⟨hp, fun hnil => ?_⟩
          rw [hnil] at he
          simp at he
      rw [hflag, capFlagSpec, capFlagSpec]
      rw [Bool.not_eq_true] at halpha
      constructor
      · rintro (hA | ⟨hf, hna⟩)
        · rcases hshift.mp hA with ⟨j, -, hj, hp, hna⟩
          exact Or.inl ⟨j, hj, hp, hna⟩
        · exact Or.inr ⟨hf, (noAlphaLt_cons c cs n).mpr ⟨halpha, hna⟩⟩
      · rintro (⟨j, hj, hp, hna⟩ | ⟨hf, hna⟩)
        · cases j with
          | zero => exact absurd hp hpz
          | succ j' =>
            exact Or.inl (hshift.mpr ⟨j' + 1, by omega, hj, hp, hna⟩)
        · exact Or.inr ⟨hf, ((noAlphaLt_cons c cs n).mp hna).2⟩

theorem flagAt_iff : ∀ (l : List Char) (k : Nat) (flag : Bool),
    flagAt flag l k = true ↔ capFlagSpec flag l k := by
  intro l
  induction l with
  | nil =>
    intro k flag
    cases k with
    | zero => rw [flagAt, capFlagSpec_zero]
    | succ n => rw [flagAt, capFlagSpec_nil]
  | cons c cs ih =>
    intro k flag
    cases k with
    | zero => rw [flagAt, capFlagSpec_zero]
    | succ n => rw [flagAt, ih, capFlagSpec_cons]

theorem flagAt_head_congr (c c' : Char) (cs : List Char) (k : Nat)
    (hp : sentencePunct c' = sentencePunct c) :
    flagAt false (c' :: cs) k = flagAt false (c :: cs) k := by
  cases k with
  | zero => rfl
  | succ n =>
    rw [flagAt, flagAt]
    congr 1
    rw [updFlag, updFlag, hp]
    cases hb : (sentencePunct c && !cs.isEmpty) <;> simp

/-- C6: `capitalize_sentences` keeps the text's length, returns empty input
unchanged, uppercases the first character, and uppercases exactly the first
alphabetic character after each non-final `.`/`?`/`!` (every other character
is returned unchanged); `capitalize_sentences "hello world" = "Hello world"`,
`capitalize_sentences "hello. world" = "Hello. World"`. -/
theorem capitalize_sentences_spec :
    capitalize_sentences "" = "" ∧
    (∀ s : String, (capitalize_sentences s).data.length = s.data.length) ∧
    (∀ (s : String) (c : Char) (cs : List Char), s.data = c :: cs →
      (capitalize_sentences s).data.get? 0 = some c.toUpper) ∧
    (∀ (s : String) (c : Char) (cs : List Char), s.data = c :: cs →
      ∀ (k : Nat) (ch : Char), 0 < k → s.data.get? k = some ch →
        ((capFlagSpec false s.data k → ch.isAlpha = true →
          (capitalize_sentences s).data.get? k = some ch.toUpper) ∧
         (ch.isAlpha = false →
          (capitalize_sentences s).data.get? k = some ch) ∧
         (¬ capFlagSpec false s.data k →
          (capitalize_sentences s).data.get? k = some ch))) ∧
    capitalize_sentences "hello world" = "Hello world" ∧
    capitalize_sentences "hello. world" = "Hello. World" := by
  refine ⟨rfl, capitalize_sentences_length, ?_, ?_, by decide, by decide⟩
  · intro s c cs h
    rw [capitalize_sentences_data s c cs h, capitalizeAux_get?, List.get?_cons_zero]
    rw [show flagAt false (c.toUpper :: cs) 0 = false from rfl]
    simp
  · intro s c cs h k ch hk hget
    have hflag : flagAt false (c.toUpper :: cs) k = flagAt false s.data k := by
      rw [h]
      exact flagAt_head_congr c c.toUpper cs k (toUpper_sentencePunct c)
    have hget' : (c.toUpper :: cs).get? k = some ch := by
      cases k with
      | zero => omega
      | succ n =>
        rw [List.get?_cons_succ]
        rw [h, List.get?_cons_succ] at hget
        exact hget
    have hout : (capitalize_sentences s).data.get? k =
        some (if flagAt false s.data k && ch.isAlpha then ch.toUpper else ch) := by
      rw [capitalize_sentences_data s c cs h, capitalizeAux_get?, hget', hflag]
      rfl
    refine ⟨?_, ?_, ?_⟩
    · intro hcf hal
      rw [hout, (flagAt_iff s.data k false).mpr hcf, hal]
      rfl
    · intro hal
      rw [hout, hal, Bool.and_false]
      rfl
    · intro hncf
      have hf : flagAt false s.data k = false := by
        rw [← Bool.not_eq_true]
        intro ht
        exact hncf ((flagAt_iff s.data k false).mp ht)
      rw [hout, hf]
      rfl

end Ytrag
